import Mathlib

/-!
ZEQClient reliable transport: `AckManager`

A shallow embedding of `src/ack_manager.cpp`.

* `uint16` values are natural numbers below `65536`; every store into a
  `uint16` variable is written with an explicit `% 65536`.
* Arithmetic on two `uint16` operands is carried out after the integral
  promotion to `int`, so such a sum or difference does not wrap at 16
  bits; where a difference can be negative it is computed in `Int`.
* `ack_manager.h` is not among the sources. `WINDOW_SIZE`, which it
  declares, is modelled from the spec (see `WINDOW_SIZE` and
  `compareSequence`).
* The two 65536-slot pointer tables are functions `Nat → Option _`
  (`none` is the null pointer).
* The socket is the log of the sequence numbers handed to `sendAck`.
* `checkAfterPacket` and `checkFragmentComplete` call each other and the
  `while (nextPacket)` loop has no bound of its own, so these take a fuel
  argument; `none` means that no state is returned: the fuel ran out, or a
  datagram shorter than its framing (4 bytes, 8 for a fragment head)
  reached a copy of `len - 4` or `len - 8` bytes, a length that is
  computed in `uint32` and wraps, so that the copy runs off the buffer.
-/

namespace AckManager

/-- Size of the sequence space: a `uint16` takes the values `0 .. 65535`. -/
def SEQUENCE_MAX : Nat := 65536

/-- Modelled from the spec: `WINDOW_SIZE` is declared in `ack_manager.h`,
which is not among the sources. The spec gives the window as 2048, and
says of `expected − window` in the classification (§4.1, §8) that it is
evaluated with wraparound subtraction and is a very large number when
`expected < window`. -/
def WINDOW_SIZE : Nat := 2048

/-- The result of `compareSequence`. -/
inductive PacketSequence where
  | SEQUENCE_PAST
  | SEQUENCE_PRESENT
  | SEQUENCE_FUTURE
  deriving DecidableEq, Repr

open PacketSequence

/-- `AckManager::compareSequence(uint16 got, uint16 expected)`.
The source writes `expected + WINDOW_SIZE` and `expected - WINDOW_SIZE`
with no cast, so their arithmetic is that of the declaration of
`WINDOW_SIZE`. Following the spec, the difference wraps: both are taken in
unsigned 32-bit arithmetic, the `uint16` operands being converted to it.
The sum is below `2^32` and does not wrap; the difference is
`expected + 2^32 - 2048` when `expected < 2048`, above every `got`.
A wider unsigned type gives the same answers. For `expected ≥ 2048`
neither the sum nor the difference wraps, and the answers are also those
for a constant of type `int` or narrower. -/
def compareSequence (got expected : Nat) : PacketSequence :=
  if got = expected then SEQUENCE_PRESENT
  else if (got > expected ∧ got < (expected + WINDOW_SIZE) % 4294967296)
      ∨ got < (expected + 4294967296 - WINDOW_SIZE) % 4294967296 then SEQUENCE_FUTURE
  else SEQUENCE_PAST

/-- A received datagram kept by the channel: `data` with `len = data.length`. -/
structure ReadPacket where
  data : List Nat
  deriving DecidableEq, Repr

/-- Field `len` of a `ReadPacket`. -/
def ReadPacket.len (rp : ReadPacket) : Nat := rp.data.length

/-- A sent datagram as retained by `recordSentPacket`: its bytes. -/
abbrev Packet := List Nat

/-- Big-endian 16-bit value of two bytes (`toHostShort` of a network-order field). -/
def toHostShort (hi lo : Nat) : Nat := (hi % 256) * 256 + lo % 256

/-- Big-endian 32-bit value of four bytes (`toHostLong` of a network-order field). -/
def toHostLong (b0 b1 b2 b3 : Nat) : Nat :=
  (((b0 % 256) * 256 + b1 % 256) * 256 + b2 % 256) * 256 + b3 % 256

/-- The opcode field, bytes 0-1 of a datagram. -/
def opcodeOf (d : List Nat) : Nat := toHostShort (d.getD 0 0) (d.getD 1 0)

/-- The sequence field, bytes 2-3 of a datagram. -/
def sequenceOf (d : List Nat) : Nat := toHostShort (d.getD 2 0) (d.getD 3 0)

/-- The declared total length, bytes 4-7 of a fragment head. -/
def fragSizeOf (d : List Nat) : Nat :=
  toHostLong (d.getD 4 0) (d.getD 5 0) (d.getD 6 0) (d.getD 7 0)

/-- The collaborators declared outside the sources: the fragment opcode
(`network_protocol.h`) and `NetworkCRC::validatePacket(data, len, mCRCKey)`
for the session key. -/
structure Network where
  OP_Fragment : Nat
  validatePacket : List Nat → Nat → Bool

/-- The members of `AckManager` the inbound and outbound paths use.
`mSocket` is the log of acks sent, oldest first. -/
structure State where
  mExpectedSeq : Nat
  mBuildingFrag : Bool
  mFragStart : Nat
  mFragEnd : Nat
  mFragMilestone : Nat
  mFuturePackets : Nat → Option ReadPacket
  mSentPackets : Nat → Option Packet
  mReadPacketQueue : List ReadPacket
  mSocket : List Nat

/-- Store `v` in slot `i` of a table. -/
def setSlot {α : Type} (t : Nat → Option α) (i : Nat) (v : Option α) : Nat → Option α :=
  fun j => if j = i then v else t j

/-- The `for` loop of `receiveAck`: `n` is the number of iterations left
(`WINDOW_SIZE - count`), `seq` the running `uint16`. -/
def receiveAckLoop : Nat → Nat → (Nat → Option Packet) → (Nat → Option Packet)
  | 0, _, t => t
  | n + 1, seq, t =>
    match t seq with
    | some _ => receiveAckLoop n ((seq + 65535) % 65536) (setSlot t seq none)
    | none => t

/-- `AckManager::receiveAck(uint16 seq)`. -/
def receiveAck (s : State) (seq : Nat) : State :=
  { s with mSentPackets := receiveAckLoop WINDOW_SIZE seq s.mSentPackets }

/-- `AckManager::recordSentPacket(const Packet& packet, uint16 seq)`. -/
def recordSentPacket (s : State) (packet : Packet) (seq : Nat) : State :=
  { s with mSentPackets := setSlot s.mSentPackets seq (some packet) }

/-- `AckManager::sendAck(uint16 seq)`: one ack datagram carrying `seq`
goes out through the socket. -/
def sendAck (s : State) (seq : Nat) : State :=
  { s with mSocket := s.mSocket ++ [seq % 65536] }

/-- `AckManager::sendKeepAliveAck()`: `mExpectedSeq - 1` is computed in
`int` and converted to the `uint16` parameter. -/
def sendKeepAliveAck (s : State) : State :=
  sendAck s ((s.mExpectedSeq + 65535) % 65536)

/-- First loop of `checkFragmentComplete`: walks `i` from `mFragStart + 1`
up to `mFragEnd`, returns `none` at a null slot and the accumulated
`uint32` length otherwise. The first argument bounds the iterations; a
`uint16` counter meets `mFragEnd` within 65536 increments, so with the
bound 65536 the case `0` is never reached. -/
def fragLength (fp : Nat → Option ReadPacket) (fragEnd : Nat) :
    Nat → Nat → Nat → Option Nat
  | 0, _, len => some len
  | n + 1, i, len =>
    if i = fragEnd then some len
    else
      match fp i with
      | none => none
      | some rp => fragLength fp fragEnd n ((i + 1) % 65536)
          ((len + (rp.len + 4294967296 - 4)) % 4294967296)

/-- Second loop of `checkFragmentComplete`: empties each slot from `i` up
to `mFragEnd` and appends its bytes after the 4-byte framing to `out`.
For a piece of fewer than 4 bytes `sub->len - 4` wraps in `uint32` and the
copy runs off the buffer: no result. The loop does not test `sub` for
null; the first loop has found every slot of the range populated, so the
case does not arise, and it is given no result either. -/
def fragCopy (fragEnd : Nat) :
    Nat → Nat → (Nat → Option ReadPacket) → List Nat →
      Option ((Nat → Option ReadPacket) × List Nat)
  | 0, _, fp, out => some (fp, out)
  | n + 1, i, fp, out =>
    if i = fragEnd then some (fp, out)
    else
      match fp i with
      | none => none
      | some sub =>
        if sub.len < 4 then none
        else
          fragCopy fragEnd n ((i + 1) % 65536) (setSlot fp i none) (out ++ sub.data.drop 4)

mutual

/-- `AckManager::checkFragmentComplete()`. With every piece present, a
head of fewer than 8 bytes makes `first->len - 8` wrap in `uint32`, as a
continuation of fewer than 4 bytes does `sub->len - 4`: the copy runs off
the buffer and no state is returned. -/
def checkFragmentComplete (net : Network) : Nat → State → Option State
  | 0, _ => none
  | fuel + 1, s =>
    match s.mFuturePackets s.mFragStart with
    | none => some s
    | some first =>
      match fragLength s.mFuturePackets s.mFragEnd 65536 ((s.mFragStart + 1) % 65536)
          ((first.len + 4294967296 - 8) % 4294967296) with
      | none => some s
      | some len =>
        if first.len < 8 then none
        else
          match fragCopy s.mFragEnd 65536 ((s.mFragStart + 1) % 65536)
              (setSlot s.mFuturePackets s.mFragStart none) (first.data.drop 8) with
          | none => none
          | some r =>
            let i := s.mFragEnd
            let s1 : State :=
              { s with
                mFuturePackets := r.1
                mReadPacketQueue :=
                  if net.validatePacket r.2 len then s.mReadPacketQueue ++ [⟨r.2⟩]
                  else s.mReadPacketQueue
                mExpectedSeq := i
                mBuildingFrag := false }
            let s2 := sendAck s1 ((i + 65535) % 65536)
            match checkAfterPacket net fuel s2 with
            | none => none
            | some s3 =>
              if s3.mExpectedSeq ≠ i then some (sendAck s3 ((s3.mExpectedSeq + 65535) % 65536))
              else some s3

/-- `AckManager::checkAfterPacket()`. -/
def checkAfterPacket (net : Network) : Nat → State → Option State
  | 0, _ => none
  | fuel + 1, s =>
    match s.mFuturePackets s.mExpectedSeq with
    | none => some s
    | some nextPacket => checkAfterLoop net fuel s.mExpectedSeq nextPacket s

/-- One pass of the `while (nextPacket)` loop of `checkAfterPacket`, with
the locals `i` and `nextPacket` (non-null). For a buffered data datagram
of fewer than 4 bytes `nextPacket->len - 4` wraps in `uint32` and no state
is returned. -/
def checkAfterLoop (net : Network) : Nat → Nat → ReadPacket → State → Option State
  | 0, _, _, _ => none
  | fuel + 1, i, nextPacket, s =>
    let body : Option State :=
      if opcodeOf nextPacket.data = net.OP_Fragment then checkFragmentComplete net fuel s
      else if nextPacket.len < 4 then none
      else
        some { s with
          mReadPacketQueue := s.mReadPacketQueue ++ [⟨nextPacket.data.drop 4⟩]
          mFuturePackets := setSlot s.mFuturePackets i none
          mExpectedSeq := (s.mExpectedSeq + 1) % 65536 }
    match body with
    | none => none
    | some s1 =>
      if i ≠ s1.mExpectedSeq then
        match s1.mFuturePackets s1.mExpectedSeq with
        | none => some s1
        | some p => checkAfterLoop net fuel s1.mExpectedSeq p s1
      else checkAfterLoop net fuel i nextPacket s1

end

/-- `AckManager::checkInboundPacket(byte* packet, uint32 len)`; the
datagram is the list of its `len` bytes. For an expected datagram of fewer
than 4 bytes `len - 4` wraps in `uint32` and no state is returned. -/
def checkInboundPacket (net : Network) (fuel : Nat) (s : State) (packet : List Nat) :
    Option State :=
  let seq := sequenceOf packet
  match compareSequence seq s.mExpectedSeq with
  | SEQUENCE_PRESENT =>
    if packet.length < 4 then none
    else
      let s1 : State :=
        { s with
          mReadPacketQueue := s.mReadPacketQueue ++ [⟨packet.drop 4⟩]
          mExpectedSeq := (s.mExpectedSeq + 1) % 65536 }
      match checkAfterPacket net fuel s1 with
      | none => none
      | some s2 => some (sendAck s2 ((s2.mExpectedSeq + 65535) % 65536))
  | SEQUENCE_FUTURE =>
    some { s with mFuturePackets := setSlot s.mFuturePackets seq (some ⟨packet⟩) }
  | SEQUENCE_PAST => some s

/-- The `case SEQUENCE_FUTURE` block of `checkInboundFragment`, which the
`SEQUENCE_PRESENT` block falls through into. -/
def checkInboundFragmentFuture (net : Network) (fuel : Nat) (s : State)
    (packet : List Nat) (seq : Nat) : Option State :=
  let s1 : State := { s with mFuturePackets := setSlot s.mFuturePackets seq (some ⟨packet⟩) }
  if s1.mBuildingFrag then
    match checkFragmentComplete net fuel s1 with
    | none => none
    | some s2 =>
      if s2.mBuildingFrag ∧ (seq : Int) - (s2.mFragMilestone : Int) ≥ 10 then
        some (sendAck { s2 with mFragMilestone := seq } seq)
      else some s2
  else some s1

/-- `AckManager::checkInboundFragment(byte* packet, uint32 len)`. -/
def checkInboundFragment (net : Network) (fuel : Nat) (s : State) (packet : List Nat) :
    Option State :=
  let seq := sequenceOf packet
  match compareSequence seq s.mExpectedSeq with
  | SEQUENCE_PRESENT =>
    let s1 : State :=
      { s with
        mBuildingFrag := true
        mFragStart := seq
        mFragMilestone := seq
        mFuturePackets := setSlot s.mFuturePackets seq (some ⟨packet⟩)
        mFragEnd := (seq + fragSizeOf packet / 508 + 1) % 65536 }
    match checkFragmentComplete net fuel s1 with
    | none => none
    | some s2 => checkInboundFragmentFuture net fuel s2 packet seq
  | SEQUENCE_FUTURE => checkInboundFragmentFuture net fuel s packet seq
  | SEQUENCE_PAST => some s

/-- Datagrams handed one after another to `checkInboundPacket`, each call
with the same fuel allowance. -/
def feedPackets (net : Network) (fuel : Nat) : State → List (List Nat) → Option State
  | s, [] => some s
  | s, d :: ds =>
    match checkInboundPacket net fuel s d with
    | none => none
    | some s1 => feedPackets net fuel s1 ds

/-- Datagrams handed one after another to `checkInboundFragment`. -/
def feedFragments (net : Network) (fuel : Nat) : State → List (List Nat) → Option State
  | s, [] => some s
  | s, d :: ds =>
    match checkInboundFragment net fuel s d with
    | none => none
    | some s1 => feedFragments net fuel s1 ds

/-! ## Example states and datagrams -/

/-- The channel as the constructor leaves it: nothing expected before
sequence 0, both tables zeroed, nothing queued or sent. The fragment
fields, which the constructor leaves unset, are taken as 0. -/
def initState : State :=
  { mExpectedSeq := 0
    mBuildingFrag := false
    mFragStart := 0
    mFragEnd := 0
    mFragMilestone := 0
    mFuturePackets := fun _ => none
    mSentPackets := fun _ => none
    mReadPacketQueue := []
    mSocket := [] }

/-- Sent datagrams recorded for the sequence numbers 10 to 15. -/
def retained10to15 : State :=
  recordSentPacket (recordSentPacket (recordSentPacket (recordSentPacket (recordSentPacket
    (recordSentPacket initState [0, 9, 0, 10] 10) [0, 9, 0, 11] 11) [0, 9, 0, 12] 12)
    [0, 9, 0, 13] 13) [0, 9, 0, 14] 14) [0, 9, 0, 15] 15

/-- Sent datagrams recorded for the sequence numbers 10 and 12 only. -/
def retained10and12 : State :=
  recordSentPacket (recordSentPacket initState [0, 9, 0, 10] 10) [0, 9, 0, 12] 12

/-- A datagram with opcode `op`, sequence number `seq` and the given bytes
after the 4-byte header. -/
def dataDatagram (op seq : Nat) (body : List Nat) : List Nat :=
  [op / 256 % 256, op % 256, seq / 256 % 256, seq % 256] ++ body

/-- A channel expecting sequence number `e`, otherwise as constructed. -/
def expecting (e : Nat) : State := { initState with mExpectedSeq := e }

/-- A session whose fragment opcode is `0x0d` and whose checksum accepts
every payload. -/
def acceptingNet : Network := { OP_Fragment := 13, validatePacket := fun _ _ => true }

/-- The data datagram at offset `j` from `e`: opcode 9, sequence number
`e + j`, one payload byte. -/
def numbered (e j : Nat) : List Nat := dataDatagram 9 (e + j) [j % 256]

/-- An assembly for `[50, 53)` with the datagrams 50 and 52 buffered and 51 missing. -/
def fragment50and52 : State :=
  { initState with
    mExpectedSeq := 50
    mBuildingFrag := true
    mFragStart := 50
    mFragEnd := 53
    mFragMilestone := 50
    mFuturePackets :=
      setSlot (setSlot (fun _ => none) 50 (some ⟨[0, 13, 0, 50, 0, 0, 4, 176, 1, 2]⟩))
        52 (some ⟨[0, 13, 0, 52, 5, 6]⟩) }

/-- The 1200-byte message of the spec at sequence 50: a head with 500
payload bytes and continuations with 504 and 196. -/
def piece1200 (j : Nat) : List Nat :=
  if j = 0 then [0, 13, 0, 50, 0, 0, 4, 176] ++ List.replicate 500 7
  else if j = 1 then dataDatagram 13 51 (List.replicate 504 8)
  else dataDatagram 13 52 (List.replicate 196 9)

/-- A message of 1040388 bytes at sequence 2048 in 2049 pieces: a head
with 4 payload bytes and 2048 continuations with 508 each. -/
def bigPiece (j : Nat) : List Nat :=
  if j = 0 then [0, 13, 8, 0, 0, 15, 224, 4] ++ List.replicate 4 1
  else dataDatagram 13 (2048 + j) (List.replicate 508 2)

/-- A retention table with a sent datagram in every slot. -/
def fullyRetained : State := { initState with mSentPackets := fun _ => some [0, 9] }

/-- A fragment head at sequence 50 declaring 10668 bytes, 22 pieces. -/
def longHead : List Nat := [0, 13, 0, 50, 0, 0, 41, 172, 1, 2, 3, 4]

/-- An assembly for `[50, 72)` with only the head buffered. -/
def headAt50 : State :=
  { initState with
    mExpectedSeq := 50
    mBuildingFrag := true
    mFragStart := 50
    mFragEnd := 72
    mFragMilestone := 50
    mFuturePackets := setSlot (fun _ => none) 50 (some ⟨longHead⟩) }

/-- A fragmented message of 600 bytes at sequence 0: the head, with 504 payload bytes. -/
def twoPieceHead : List Nat := [0, 13, 0, 0, 0, 0, 2, 88] ++ List.replicate 504 1
/-- Its continuation at sequence 1, with the remaining 96 bytes. -/
def twoPieceCont : List Nat := dataDatagram 13 1 (List.replicate 96 2)
/-- The head of a later fragmented message, at sequence 3. -/
def laterHead : List Nat := [0, 13, 0, 3, 0, 0, 4, 176, 9, 9]

/-- ExpectedSequence 65534 with the data datagrams 65535 and 0 buffered. -/
def twoBuffered : State :=
  { initState with
    mExpectedSeq := 65534
    mFuturePackets :=
      setSlot (setSlot (fun _ => none) 65535 (some ⟨numbered 65534 1⟩)) 0
        (some ⟨numbered 65534 2⟩) }

/-- A session whose checksum rejects every payload. -/
def rejectingNet : Network := { OP_Fragment := 13, validatePacket := fun _ _ => false }

/-- The assembly `[50, 53)` of the 1200-byte message with all three pieces buffered. -/
def complete1200 : State :=
  { initState with
    mExpectedSeq := 50
    mBuildingFrag := true
    mFragStart := 50
    mFragEnd := 53
    mFragMilestone := 50
    mFuturePackets :=
      setSlot (setSlot (setSlot (fun _ => none) 50 (some ⟨piece1200 0⟩)) 51
        (some ⟨piece1200 1⟩)) 52 (some ⟨piece1200 2⟩) }

/-- The span `mFragEnd - mFragStart` (mod 65536) that `checkInboundFragment`
sets for a head declaring `size` bytes: `mFragEnd = seq + (size / 508) + 1`
is stored in a `uint16`, so the span is `size / 508 + 1` reduced mod 65536. -/
def fragmentSpan (size : Nat) : Nat := (size / 508 + 1) % 65536

/-- The number of datagrams a maximally packed sender needs for `L` bytes,
in the words of the claim: the head carries at most 504 payload bytes and
each continuation at most 508, so 1 if `L ≤ 504` and
`1 + ceil((L - 504) / 508)` otherwise. -/
def packedDatagrams (L : Nat) : Nat :=
  if L ≤ 504 then 1 else 1 + (L - 504 + 507) / 508

/-- A data datagram with sequence number 100 and three payload bytes. -/
def stale100 : List Nat := dataDatagram 9 100 [1, 2, 3]

/-- A single-datagram fragmented message at sequence 0: declared length 4,
four payload bytes. -/
def smallHead : List Nat := [0, 13, 0, 0, 0, 0, 0, 4, 1, 2, 3, 4]

/-- The head of a later fragmented message, at sequence 2. -/
def headAt2 : List Nat := [0, 13, 0, 2, 0, 0, 4, 176, 9, 9]

/-- A fragment head at sequence 65530 declaring 6096 bytes, 13 pieces: the
assembly `[65530, 7)` runs across the wrap of the sequence space. -/
def wrapHead : List Nat := [0, 13, 255, 250, 0, 0, 23, 208, 1, 2, 3, 4]

/-- A single-datagram fragmented message at sequence 50: declared length 2,
two payload bytes. -/
def completeHead50 : List Nat := [0, 13, 0, 50, 0, 0, 0, 2, 5, 6]

/-- A fragment head at sequence 0 declaring 505 bytes. -/
def head505 : List Nat := [0, 13, 0, 0, 0, 0, 1, 249, 1, 2, 3, 4]

/-! ## Invariants used in the proofs -/

/-- The payloads of the datagrams `d 0 .. d (m-1)`, in sequence order. -/
def deliveredRun (d : Nat → List Nat) (m : Nat) : List ReadPacket :=
  (List.range m).map (fun j => ⟨(d j).drop 4⟩)

/-- PendingInbound holds exactly the datagrams `d j` for the arrived offsets
`j ∈ A` at or after offset `c` from `e`, each in slot `e + j`. -/
structure SlotsFrom (d : Nat → List Nat) (e : Nat) (A : List Nat) (c : Nat) (s : State) :
    Prop where
  held : ∀ j, j ∈ A → c ≤ j → s.mFuturePackets ((e + j) % 65536) = some ⟨d j⟩
  free : ∀ x, (∀ j, j ∈ A → c ≤ j → x ≠ (e + j) % 65536) → s.mFuturePackets x = none

/-- The channel after the data datagrams with offsets `A` (all below `k`)
have arrived, starting from `s0` with ExpectedSequence `e`: `m` is the
first offset not yet arrived, the first `m` payloads are queued and the
later arrivals are buffered. -/
structure InOrderAt (d : Nat → List Nat) (e k : Nat) (s0 : State) (A : List Nat) (m : Nat)
    (s : State) : Prop where
  hmk : m ≤ k
  below : ∀ j, j < m → j ∈ A
  notin : m ∉ A
  bound : ∀ j, j ∈ A → j < k
  expected : s.mExpectedSeq = (e + m) % 65536
  queue : s.mReadPacketQueue = s0.mReadPacketQueue ++ deliveredRun d m
  slots : SlotsFrom d e A m s
  sockFirst : m = 0 → s.mSocket = s0.mSocket
  sockLast : 0 < m → ∃ l, s.mSocket = l ++ [(e + m + 65535) % 65536]
  sent : s.mSentPackets = s0.mSentPackets

/-- The payload bytes of the continuation pieces `p t .. p (t+cnt-1)`, in order. -/
def contBytes (p : Nat → List Nat) : Nat → Nat → List Nat
  | _, 0 => []
  | t, cnt + 1 => (p t).drop 4 ++ contBytes p (t + 1) cnt

/-- The message carried by the head `p 0` and the continuations `p 1 .. p (n-1)`. -/
def reassembled (p : Nat → List Nat) (n : Nat) : List Nat :=
  (p 0).drop 8 ++ contBytes p 1 (n - 1)

/-- The state `checkFragmentComplete` builds once every piece is present
and copied: `r` is the result of the copy loop, the emptied table and the
reassembled bytes. -/
def completedState (net : Network) (s : State) (r : (Nat → Option ReadPacket) × List Nat)
    (len : Nat) : State :=
  sendAck
    { s with
      mFuturePackets := r.1
      mReadPacketQueue :=
        if net.validatePacket r.2 len then s.mReadPacketQueue ++ [⟨r.2⟩]
        else s.mReadPacketQueue
      mExpectedSeq := s.mFragEnd
      mBuildingFrag := false }
    ((s.mFragEnd + 65535) % 65536)

/-- The channel while a fragmented message of `n` pieces `p 0 .. p (n-1)`
starting at `start` is still arriving: `A` are the offsets arrived so far,
all buffered, nothing delivered yet; the assembly fields are set once the
head (offset 0) has arrived. -/
structure FragAt (p : Nat → List Nat) (start n : Nat) (s0 : State) (A : List Nat)
    (s : State) : Prop where
  bound : ∀ j, j ∈ A → j < n
  expected : s.mExpectedSeq = start
  queue : s.mReadPacketQueue = s0.mReadPacketQueue
  slots : SlotsFrom p start A 0 s
  building : s.mBuildingFrag = true ↔ 0 ∈ A
  fragStart : 0 ∈ A → s.mFragStart = start
  fragEnd : 0 ∈ A → s.mFragEnd = (start + n) % 65536

/-- What no inbound operation undoes: `s'` has the assembly bounds and the
retained sent datagrams of `s`, and its DeliveryQueue is the queue of `s`
with entries appended. -/
structure Extends (s s' : State) : Prop where
  fragStart : s'.mFragStart = s.mFragStart
  fragEnd : s'.mFragEnd = s.mFragEnd
  sent : s'.mSentPackets = s.mSentPackets
  queue : ∃ t, s'.mReadPacketQueue = s.mReadPacketQueue ++ t

/-! ## Sequence classification -/

/-- C6: for every expected value `e`, `compareSequence e e` is
`SEQUENCE_PRESENT`. -/
theorem compareSequence_same (e : Nat) : compareSequence e e = SEQUENCE_PRESENT := by
  simp [compareSequence]

/-- C7: a `got` that is cyclically ahead of `e` by less than the window,
`0 < (got - e) mod 65536 < WINDOW_SIZE`, is classified `SEQUENCE_FUTURE`,
also when `got` has wrapped past 65535. -/
theorem compareSequence_lookahead (got e : Nat) (hg : got < 65536) (he : e < 65536)
    (h0 : 0 < (got + 65536 - e) % 65536) (hw : (got + 65536 - e) % 65536 < WINDOW_SIZE) :
    compareSequence got e = SEQUENCE_FUTURE := by
  unfold WINDOW_SIZE at hw
  unfold compareSequence WINDOW_SIZE
  have hne : got ≠ e := by
    rintro rfl
    omega
  rw [if_neg hne]
  rw [if_pos]
  omega

/-- Witness for C7 with a wrapped `got`: expected 65000, got 100. -/
theorem compareSequence_lookahead_witness :
    (100 < 65536 ∧ 65000 < 65536 ∧ 0 < (100 + 65536 - 65000) % 65536
      ∧ (100 + 65536 - 65000) % 65536 < WINDOW_SIZE)
    ∧ compareSequence 100 65000 = SEQUENCE_FUTURE :=
  ⟨by decide, compareSequence_lookahead 100 65000 (by decide) (by decide) (by decide) (by decide)⟩

/-- C8, as stated, fails: with 100 expected (below the window) the
sequence number 50, which is 50 steps behind, is classified
`SEQUENCE_FUTURE`: the threshold `expected - WINDOW_SIZE` has wrapped to a
value above every `got`. -/
theorem compareSequence_behind_below_window :
    (50 < 65536 ∧ 100 < 65536 ∧ 0 < (100 + 65536 - 50) % 65536
      ∧ (100 + 65536 - 50) % 65536 ≤ WINDOW_SIZE)
    ∧ compareSequence 50 100 = SEQUENCE_FUTURE
    ∧ compareSequence 50 100 ≠ SEQUENCE_PAST := by
  decide

/-- C8, amended: for an expected value `e` at or above the window, a `got`
that is cyclically behind `e` by at most the window,
`0 < (e - got) mod 65536 ≤ WINDOW_SIZE`, is classified `SEQUENCE_PAST`. -/
theorem compareSequence_behind (got e : Nat) (hg : got < 65536) (he : e < 65536)
    (hW : WINDOW_SIZE ≤ e)
    (h0 : 0 < (e + 65536 - got) % 65536) (hw : (e + 65536 - got) % 65536 ≤ WINDOW_SIZE) :
    compareSequence got e = SEQUENCE_PAST := by
  unfold WINDOW_SIZE at hw hW
  unfold compareSequence WINDOW_SIZE
  have hne : got ≠ e := by
    rintro rfl
    omega
  rw [if_neg hne]
  rw [if_neg]
  omega

/-- Witness for the amended C8: expected 10000, got 8000. -/
theorem compareSequence_behind_witness :
    (8000 < 65536 ∧ 10000 < 65536 ∧ WINDOW_SIZE ≤ 10000 ∧ 0 < (10000 + 65536 - 8000) % 65536
      ∧ (10000 + 65536 - 8000) % 65536 ≤ WINDOW_SIZE)
    ∧ compareSequence 8000 10000 = SEQUENCE_PAST :=
  ⟨by decide,
   compareSequence_behind 8000 10000 (by decide) (by decide) (by decide) (by decide) (by decide)⟩

/-- C9, as stated, fails: with expected 65000 and got 65001 the code
answers `SEQUENCE_FUTURE` (65001 < 65000 + 2048, a sum that is not reduced
to 16 bits), while the rule with 16-bit wrapped bounds, 65001 < 1512 or
65001 < 62952, does not. -/
theorem compareSequence_wrapped_rule_fails :
    ¬ (compareSequence 65001 65000 = SEQUENCE_FUTURE ↔
        ((65000 < 65001 ∧ 65001 < (65000 + WINDOW_SIZE) % 65536)
          ∨ 65001 < (65000 + 65536 - WINDOW_SIZE) % 65536)) := by
  decide

/-- C9, amended: the sum `expected + WINDOW_SIZE` is not reduced to 16
bits. For `got ≠ expected` and `expected` at or above the window (where
`expected - WINDOW_SIZE` does not wrap either) the answer is
`SEQUENCE_FUTURE` exactly when `expected < got < expected + WINDOW_SIZE` or
`got < expected - WINDOW_SIZE`, and `SEQUENCE_PAST` in every other case;
for every `expected`, a `got` with `expected < got < expected + WINDOW_SIZE`
is `SEQUENCE_FUTURE`. -/
theorem compareSequence_rule (got expected : Nat) (he : expected < 65536)
    (hne : got ≠ expected) :
    (WINDOW_SIZE ≤ expected →
      (compareSequence got expected = SEQUENCE_FUTURE ↔
          ((expected < got ∧ got < expected + WINDOW_SIZE) ∨ got < expected - WINDOW_SIZE))
      ∧ (¬ ((expected < got ∧ got < expected + WINDOW_SIZE) ∨ got < expected - WINDOW_SIZE) →
          compareSequence got expected = SEQUENCE_PAST))
    ∧ (expected < got → got < expected + WINDOW_SIZE →
        compareSequence got expected = SEQUENCE_FUTURE) := by
  unfold compareSequence WINDOW_SIZE
  rw [if_neg hne]
  refine ⟨?_, ?_⟩
  · intro hW
    by_cases h : (expected < got ∧ got < expected + 2048) ∨ got < expected - 2048
    · have h2 : (got > expected ∧ got < (expected + 2048) % 4294967296)
          ∨ got < (expected + 4294967296 - 2048) % 4294967296 := by
        omega
      rw [if_pos h2]
      simp [h]
    · have h2 : ¬ ((got > expected ∧ got < (expected + 2048) % 4294967296)
          ∨ got < (expected + 4294967296 - 2048) % 4294967296) := by
        omega
      rw [if_neg h2]
      simp [h]
  · intro h1 h2
    rw [if_pos]
    omega

/-- Witness for the amended C9 at got 65001, expected 65000. -/
theorem compareSequence_rule_witness :
    (65000 < 65536 ∧ 65001 ≠ 65000 ∧ WINDOW_SIZE ≤ 65000) ∧
    (compareSequence 65001 65000 = SEQUENCE_FUTURE ↔
        ((65000 < 65001 ∧ 65001 < 65000 + WINDOW_SIZE) ∨ 65001 < 65000 - WINDOW_SIZE)) :=
  ⟨by decide, ((compareSequence_rule 65001 65000 (by decide) (by decide)).1 (by decide)).1⟩

/-- C10: there are an expected value `e` below the window and a `got`
numerically below `e` that is classified `SEQUENCE_FUTURE` (`e = 100`,
`got = 50`); indeed for every `e` below the window every `got` below `e`
is, the threshold `expected - WINDOW_SIZE` having wrapped to a value above
every `got`. -/
theorem compareSequence_low_future :
    (∃ e got : Nat, e < WINDOW_SIZE ∧ got < e ∧ compareSequence got e = SEQUENCE_FUTURE)
    ∧ (∀ e got : Nat, e < WINDOW_SIZE → got < e →
        compareSequence got e = SEQUENCE_FUTURE) := by
  refine ⟨⟨100, 50, by decide, by decide, by decide⟩, ?_⟩
  intro e got he hg
  unfold WINDOW_SIZE at he
  unfold compareSequence WINDOW_SIZE
  have hne : got ≠ e := by omega
  rw [if_neg hne]
  rw [if_pos]
  omega

/-! ## Release of retained sent datagrams -/

/-- Reading the slot just written. -/
theorem setSlot_same {α : Type} (t : Nat → Option α) (i : Nat) (v : Option α) :
    setSlot t i v i = v := by
  simp [setSlot]

/-- Reading another slot than the one written. -/
theorem setSlot_other {α : Type} (t : Nat → Option α) (i j : Nat) (v : Option α) (h : j ≠ i) :
    setSlot t i v j = t j := by
  simp [setSlot, h]

/-- The release loop never populates a slot. -/
theorem receiveAckLoop_none (n : Nat) : ∀ (seq : Nat) (t : Nat → Option Packet) (x : Nat),
    t x = none → receiveAckLoop n seq t x = none := by
  induction n with
  | zero => intro seq t x h; simpa [receiveAckLoop] using h
  | succ n ih =>
    intro seq t x h
    unfold receiveAckLoop
    cases hs : t seq with
    | none => simpa using h
    | some p =>
      simp only
      apply ih
      by_cases hx : x = seq
      · subst hx; exact setSlot_same _ _ _
      · rw [setSlot_other _ _ _ _ hx]; exact h

/-- A populated run of `j + 1` slots ending at `seq` is released when the
loop has more than `j` iterations left. -/
theorem receiveAckLoop_released (n : Nat) : ∀ (seq : Nat) (t : Nat → Option Packet) (j : Nat),
    seq < 65536 → j < n → j < 65536 →
    (∀ i, i ≤ j → (t ((seq + 65536 - i) % 65536)).isSome = true) →
    receiveAckLoop n seq t ((seq + 65536 - j) % 65536) = none := by
  induction n with
  | zero => intro seq t j _ hj; omega
  | succ n ih =>
    intro seq t j hseq hj hj2 hrun
    unfold receiveAckLoop
    have h0 := hrun 0 (Nat.zero_le _)
    have hs0 : (seq + 65536 - 0) % 65536 = seq := by omega
    rw [hs0] at h0
    cases hs : t seq with
    | none => rw [hs] at h0; cases h0
    | some p =>
      simp only
      rcases Nat.eq_zero_or_pos j with hj0 | hjpos
      · subst hj0
        rw [hs0]
        apply receiveAckLoop_none
        exact setSlot_same _ _ _
      · have key : ∀ i, i < j → ((seq + 65535) % 65536 + 65536 - i) % 65536
            = (seq + 65536 - (i + 1)) % 65536 := by
          intro i hi; omega
        have hgoal : (seq + 65536 - j) % 65536
            = ((seq + 65535) % 65536 + 65536 - (j - 1)) % 65536 := by
          omega
        rw [hgoal]
        apply ih _ _ (j - 1) (Nat.mod_lt _ (by decide)) (by omega) (by omega)
        intro i hi
        rw [key i (by omega)]
        rw [setSlot_other]
        · exact hrun (i + 1) (by omega)
        · omega

/-- Slots at or beyond an empty slot met walking backward from `seq` keep
their content. -/
theorem receiveAckLoop_beyond_gap (n : Nat) : ∀ (seq : Nat) (t : Nat → Option Packet) (g j : Nat),
    seq < 65536 → g ≤ j → j < 65536 →
    t ((seq + 65536 - g) % 65536) = none →
    receiveAckLoop n seq t ((seq + 65536 - j) % 65536) = t ((seq + 65536 - j) % 65536) := by
  induction n with
  | zero => intro seq t g j _ _ _ _; rfl
  | succ n ih =>
    intro seq t g j hseq hgj hj hgap
    unfold receiveAckLoop
    cases hs : t seq with
    | none => rfl
    | some p =>
      simp only
      have hg0 : g ≠ 0 := by
        rintro rfl
        have hs0 : (seq + 65536 - 0) % 65536 = seq := by omega
        rw [hs0, hs] at hgap
        cases hgap
      have key : ∀ i, 0 < i → i < 65536 → (seq + 65536 - i) % 65536
          = ((seq + 65535) % 65536 + 65536 - (i - 1)) % 65536 := by
        intro i h1 h2; omega
      have hne : ∀ i, 0 < i → i < 65536 → (seq + 65536 - i) % 65536 ≠ seq := by
        intro i h1 h2; omega
      rw [key j (by omega) hj]
      rw [ih ((seq + 65535) % 65536) _ (g - 1) (j - 1) (Nat.mod_lt _ (by decide)) (by omega)
        (by omega)]
      · rw [← key j (by omega) hj]
        exact setSlot_other _ _ _ _ (hne j (by omega) hj)
      · rw [← key g (by omega) (by omega)]
        rw [setSlot_other _ _ _ _ (hne g (by omega) (by omega))]
        exact hgap

/-- C3: when the `k` slots `seq-k+1 .. seq` (cyclically) of SentRetention
are populated, `1 ≤ k ≤ WINDOW_SIZE`, `receiveAck seq` leaves each of them
empty. (Whether slot `seq-k` is empty plays no part.) -/
theorem receiveAck_cumulative_release (s : State) (seq k : Nat) (hseq : seq < 65536)
    (hk1 : 1 ≤ k) (hk : k ≤ WINDOW_SIZE)
    (hrun : ∀ j, j < k → (s.mSentPackets ((seq + 65536 - j) % 65536)).isSome = true) :
    ∀ j, j < k → (receiveAck s seq).mSentPackets ((seq + 65536 - j) % 65536) = none := by
  intro j hj
  unfold WINDOW_SIZE at hk
  show receiveAckLoop WINDOW_SIZE seq s.mSentPackets _ = none
  apply receiveAckLoop_released
  · exact hseq
  · unfold WINDOW_SIZE; omega
  · omega
  · intro i hi
    exact hrun i (by omega)

/-- C4: if the slot `g` steps behind `seq` is empty, `receiveAck seq` leaves
every slot `g` or more steps behind `seq` as it was; slot `seq` itself is
empty afterwards, and ExpectedSequence, PendingInbound and the
DeliveryQueue are unchanged. -/
theorem receiveAck_stops_at_gap (s : State) (seq g : Nat) (hseq : seq < 65536)
    (hgap : s.mSentPackets ((seq + 65536 - g) % 65536) = none) :
    (∀ j, g ≤ j → j < 65536 →
        (receiveAck s seq).mSentPackets ((seq + 65536 - j) % 65536)
          = s.mSentPackets ((seq + 65536 - j) % 65536))
    ∧ (receiveAck s seq).mSentPackets seq = none
    ∧ (receiveAck s seq).mExpectedSeq = s.mExpectedSeq
    ∧ (receiveAck s seq).mFuturePackets = s.mFuturePackets
    ∧ (receiveAck s seq).mReadPacketQueue = s.mReadPacketQueue := by
  refine ⟨?_, ?_, rfl, rfl, rfl⟩
  · intro j hgj hj
    exact receiveAckLoop_beyond_gap _ _ _ g j hseq hgj hj hgap
  · show receiveAckLoop WINDOW_SIZE seq s.mSentPackets seq = none
    cases hs : s.mSentPackets seq with
    | none => exact receiveAckLoop_none _ _ _ _ hs
    | some p =>
      have := receiveAckLoop_released WINDOW_SIZE seq s.mSentPackets 0 hseq (by decide) (by decide)
        (by
          intro i hi
          have hi0 : i = 0 := by omega
          subst hi0
          have hs0 : (seq + 65536 - 0) % 65536 = seq := by omega
          rw [hs0, hs]; rfl)
      have hs0 : (seq + 65536 - 0) % 65536 = seq := by omega
      rw [hs0] at this
      exact this

/-- Witness for C3: sequence numbers 10 to 15 recorded, then `receiveAck 15`;
slot 10, the far end of the run, is empty afterwards. -/
theorem receiveAck_cumulative_release_witness :
    (15 < 65536 ∧ 1 ≤ 6 ∧ 6 ≤ WINDOW_SIZE)
    ∧ (receiveAck retained10to15 15).mSentPackets 10 = none :=
  ⟨by decide,
   receiveAck_cumulative_release retained10to15 15 6 (by decide) (by decide) (by decide)
    (by
      intro j hj
      have h : j = 0 ∨ j = 1 ∨ j = 2 ∨ j = 3 ∨ j = 4 ∨ j = 5 := by omega
      rcases h with h | h | h | h | h | h <;> subst h <;> rfl) 5 (by decide)⟩

/-- Witness for C4: only 10 and 12 recorded (11 empty), then
`receiveAck 12`; slot 10 keeps its datagram and slot 12 is empty. -/
theorem receiveAck_stops_at_gap_witness :
    retained10and12.mSentPackets 11 = none
    ∧ (receiveAck retained10and12 12).mSentPackets 10 = some [0, 9, 0, 10]
    ∧ (receiveAck retained10and12 12).mSentPackets 12 = none :=
  ⟨rfl,
   ((receiveAck_stops_at_gap retained10and12 12 1 (by decide) rfl).1 2 (by decide)
      (by decide)).trans rfl,
   (receiveAck_stops_at_gap retained10and12 12 1 (by decide) rfl).2.1⟩

/-! ## Fragment completion -/

/-- The presence scan stops with `none` when a slot before `fragEnd` is empty. -/
theorem fragLength_missing (fp : Nat → Option ReadPacket) (fragEnd : Nat) (n : Nat) :
    ∀ (i len j : Nat), i < 65536 → fragEnd < 65536 → j < n →
      j < (fragEnd + 65536 - i) % 65536 → fp ((i + j) % 65536) = none →
      fragLength fp fragEnd n i len = none := by
  induction n with
  | zero => intro i len j _ _ hj; omega
  | succ n ih =>
    intro i len j hi he hj hd hnone
    unfold fragLength
    have hne : i ≠ fragEnd := by
      rintro rfl
      omega
    rw [if_neg hne]
    cases hs : fp i with
    | none => rfl
    | some rp =>
      simp only
      have hj0 : j ≠ 0 := by
        rintro rfl
        have : (i + 0) % 65536 = i := by omega
        rw [this, hs] at hnone
        cases hnone
      apply ih ((i + 1) % 65536) _ (j - 1) (Nat.mod_lt _ (by decide)) he (by omega) (by omega)
      have : ((i + 1) % 65536 + (j - 1)) % 65536 = (i + j) % 65536 := by omega
      rw [this]
      exact hnone

/-- With the head slot or a slot of `[mFragStart, mFragEnd)` empty,
`checkFragmentComplete` returns at once and leaves the state as it is. -/
theorem checkFragmentComplete_missing (net : Network) (fuel : Nat) (s : State)
    (hs : s.mFragStart < 65536) (he : s.mFragEnd < 65536)
    (hmiss : s.mFuturePackets s.mFragStart = none ∨
      ∃ j, j < (s.mFragEnd + 65536 - s.mFragStart) % 65536 ∧
        s.mFuturePackets ((s.mFragStart + j) % 65536) = none) :
    checkFragmentComplete net (fuel + 1) s = some s := by
  unfold checkFragmentComplete
  cases hfirst : s.mFuturePackets s.mFragStart with
  | none => rfl
  | some first =>
    simp only
    rcases hmiss with h | ⟨j, hj, hnone⟩
    · rw [hfirst] at h; cases h
    · have hj0 : j ≠ 0 := by
        rintro rfl
        have : (s.mFragStart + 0) % 65536 = s.mFragStart := by omega
        rw [this, hfirst] at hnone
        cases hnone
      have hlen := fragLength_missing s.mFuturePackets s.mFragEnd 65536
        ((s.mFragStart + 1) % 65536) ((first.len + 4294967296 - 8) % 4294967296) (j - 1)
        (Nat.mod_lt _ (by decide)) he (by omega) (by omega)
        (by
          have : ((s.mFragStart + 1) % 65536 + (j - 1)) % 65536 = (s.mFragStart + j) % 65536 := by
            omega
          rw [this]; exact hnone)
      rw [hlen]

/-- C5: in every state in which the slot at `start` or a slot of
`[start, end)` of PendingInbound is empty, `checkFragmentComplete` returns
the state unchanged: no delivery, no ack, and ExpectedSequence, the
assembly fields and every slot as before. -/
theorem checkFragmentComplete_incomplete (net : Network) (fuel : Nat) (s : State)
    (hs : s.mFragStart < 65536) (he : s.mFragEnd < 65536)
    (hmiss : s.mFuturePackets s.mFragStart = none ∨
      ∃ j, j < (s.mFragEnd + 65536 - s.mFragStart) % 65536 ∧
        s.mFuturePackets ((s.mFragStart + j) % 65536) = none) :
    checkFragmentComplete net (fuel + 1) s = some s :=
  checkFragmentComplete_missing net fuel s hs he hmiss

/-- Witness for C5: start 50, end 53, datagrams 50 and 52 buffered, 51 missing. -/
theorem checkFragmentComplete_incomplete_witness :
    fragment50and52.mFuturePackets 51 = none
    ∧ checkFragmentComplete acceptingNet 1 fragment50and52 = some fragment50and52 :=
  ⟨rfl, checkFragmentComplete_incomplete acceptingNet 0 fragment50and52 (by decide) (by decide)
    (Or.inr ⟨1, by decide, rfl⟩)⟩

/-! ## In-order delivery of data datagrams -/

/-- One more payload at the end of the delivered run. -/
theorem deliveredRun_succ (d : Nat → List Nat) (m : Nat) :
    deliveredRun d (m + 1) = deliveredRun d m ++ [⟨(d m).drop 4⟩] := by
  simp [deliveredRun, List.range_succ]

/-- A sequence number less than 2048 ahead of the expected one is `SEQUENCE_FUTURE`. -/
theorem compareSequence_ahead (got e : Nat) (hg : got < 65536) (he : e < 65536)
    (h0 : 0 < (got + 65536 - e) % 65536) (hw : (got + 65536 - e) % 65536 < 2048) :
    compareSequence got e = SEQUENCE_FUTURE := by
  unfold compareSequence WINDOW_SIZE
  have hne : got ≠ e := by
    rintro rfl
    omega
  rw [if_neg hne]
  rw [if_pos]
  omega

/-- The `while` loop of `checkAfterPacket` on buffered data datagrams: it
delivers the run of arrived offsets from `c` on and stops at the first
offset `m` that has not arrived. -/
theorem checkAfterLoop_drain (net : Network) (d : Nat → List Nat) (e k : Nat) (A : List Nat)
    (q0 : List ReadPacket)
    (hk : k ≤ 2048) (hA : ∀ j, j ∈ A → j < k)
    (hop : ∀ j, j < k → opcodeOf (d j) ≠ net.OP_Fragment)
    (hlen : ∀ j, j < k → 4 ≤ (d j).length) :
    ∀ (fuel c : Nat) (s : State), c ∈ A → k - c ≤ fuel →
      s.mExpectedSeq = (e + c) % 65536 → SlotsFrom d e A c s →
      s.mReadPacketQueue = q0 ++ deliveredRun d c →
      ∃ m s', c < m ∧ m ≤ k ∧ (∀ j, c ≤ j → j < m → j ∈ A) ∧ m ∉ A
        ∧ checkAfterLoop net fuel ((e + c) % 65536) ⟨d c⟩ s = some s'
        ∧ s'.mExpectedSeq = (e + m) % 65536
        ∧ s'.mReadPacketQueue = q0 ++ deliveredRun d m
        ∧ SlotsFrom d e A m s'
        ∧ s'.mSocket = s.mSocket ∧ s'.mSentPackets = s.mSentPackets
        ∧ s'.mBuildingFrag = s.mBuildingFrag := by
  intro fuel
  induction fuel with
  | zero =>
    intro c s hc hfuel
    have := hA c hc
    omega
  | succ fuel ih =>
    intro c s hc hfuel hexp hslots hq
    have hck := hA c hc
    have hl : ¬ (ReadPacket.len ⟨d c⟩ < 4) := by
      have := hlen c hck
      show ¬ ((d c).length < 4)
      omega
    unfold checkAfterLoop
    simp only [if_neg (hop c hck), if_neg hl]
    -- the state after the body
    have hexp1 : (s.mExpectedSeq + 1) % 65536 = (e + (c + 1)) % 65536 := by
      rw [hexp]; omega
    have hne : (e + c) % 65536 ≠ (e + (c + 1)) % 65536 := by
      omega
    simp only [hexp1]
    rw [if_pos hne]
    have hq1 : s.mReadPacketQueue ++ [⟨(d c).drop 4⟩] = q0 ++ deliveredRun d (c + 1) := by
      rw [hq, deliveredRun_succ, List.append_assoc]
    have hslots1 : SlotsFrom d e A (c + 1)
        { s with
          mReadPacketQueue := s.mReadPacketQueue ++ [⟨(d c).drop 4⟩]
          mFuturePackets := setSlot s.mFuturePackets ((e + c) % 65536) none
          mExpectedSeq := (e + (c + 1)) % 65536 } := by
      constructor
      · intro j hj hcj
        have hjk := hA j hj
        show setSlot s.mFuturePackets ((e + c) % 65536) none ((e + j) % 65536) = _
        rw [setSlot_other _ _ _ _ (by omega)]
        exact hslots.held j hj (by omega)
      · intro x hx
        show setSlot s.mFuturePackets ((e + c) % 65536) none x = none
        by_cases hxc : x = (e + c) % 65536
        · rw [hxc]; exact setSlot_same _ _ _
        · rw [setSlot_other _ _ _ _ hxc]
          apply hslots.free
          intro j hj hcj
          by_cases hjc : j = c
          · rw [hjc]; exact hxc
          · exact hx j hj (by omega)
    by_cases hc1 : c + 1 ∈ A
    · -- the next slot holds a datagram: another pass
      have hheld : setSlot s.mFuturePackets ((e + c) % 65536) none ((e + (c + 1)) % 65536)
          = some ⟨d (c + 1)⟩ := hslots1.held (c + 1) hc1 (le_refl _)
      simp only [hheld]
      have hc1k := hA _ hc1
      obtain ⟨m, s', h1, h2, h3, h4, h5, h6, h7, h8, h9, h10, h11⟩ :=
        ih (c + 1) _ hc1 (by omega) rfl hslots1 hq1
      refine ⟨m, s', by omega, h2, ?_, h4, h5, h6, h7, h8, h9, h10, h11⟩
      intro j hcj hjm
      by_cases hjc : j = c
      · rw [hjc]; exact hc
      · exact h3 j (by omega) hjm
    · -- the next slot is empty: the loop ends
      have hfree : setSlot s.mFuturePackets ((e + c) % 65536) none ((e + (c + 1)) % 65536)
          = none := hslots1.free ((e + (c + 1)) % 65536) (by
        intro j hj hcj
        have hjk := hA j hj
        have : j ≠ c + 1 := by
          rintro rfl
          exact hc1 hj
        omega)
      simp only [hfree]
      refine ⟨c + 1, _, by omega, by omega, ?_, hc1, rfl, rfl, hq1, hslots1, rfl, rfl, rfl⟩
      intro j hcj hjm
      have : j = c := by omega
      rw [this]; exact hc

/-- `checkAfterPacket` on buffered data datagrams returns, having delivered
the arrived offsets from `c` up to the first one missing. -/
theorem checkAfterPacket_drain (net : Network) (d : Nat → List Nat) (e k : Nat) (A : List Nat)
    (q0 : List ReadPacket)
    (hk : k ≤ 2048) (hA : ∀ j, j ∈ A → j < k)
    (hop : ∀ j, j < k → opcodeOf (d j) ≠ net.OP_Fragment)
    (hlen : ∀ j, j < k → 4 ≤ (d j).length)
    (fuel c : Nat) (s : State) (hck : c ≤ k) (hfuel : k - c < fuel)
    (hexp : s.mExpectedSeq = (e + c) % 65536) (hslots : SlotsFrom d e A c s)
    (hq : s.mReadPacketQueue = q0 ++ deliveredRun d c) :
    ∃ m s', c ≤ m ∧ m ≤ k ∧ (∀ j, c ≤ j → j < m → j ∈ A) ∧ m ∉ A
      ∧ checkAfterPacket net fuel s = some s'
      ∧ s'.mExpectedSeq = (e + m) % 65536
      ∧ s'.mReadPacketQueue = q0 ++ deliveredRun d m
      ∧ SlotsFrom d e A m s'
      ∧ s'.mSocket = s.mSocket ∧ s'.mSentPackets = s.mSentPackets
      ∧ s'.mBuildingFrag = s.mBuildingFrag := by
  obtain ⟨fuel, rfl⟩ : ∃ f, fuel = f + 1 := ⟨fuel - 1, by omega⟩
  unfold checkAfterPacket
  by_cases hc : c ∈ A
  · have hheld := hslots.held c hc (le_refl _)
    rw [← hexp] at hheld
    simp only [hheld]
    rw [hexp]
    obtain ⟨m, s', h1, h2, h3, h4, h5, h6, h7, h8, h9, h10, h11⟩ :=
      checkAfterLoop_drain net d e k A q0 hk hA hop hlen fuel c s hc (by omega) hexp hslots hq
    exact ⟨m, s', by omega, h2, h3, h4, h5, h6, h7, h8, h9, h10, h11⟩
  · have hfree := hslots.free ((e + c) % 65536) (by
      intro j hj hcj
      have hjk := hA j hj
      have : j ≠ c := by
        rintro rfl
        exact hc hj
      omega)
    rw [← hexp] at hfree
    simp only [hfree]
    exact ⟨c, s, le_refl _, hck, by intro j h1 h2; omega, hc, rfl, hexp, hq, hslots, rfl, rfl, rfl⟩

/-- One arrival keeps the in-order invariant. -/
theorem checkInboundPacket_step (net : Network) (d : Nat → List Nat) (e k : Nat)
    (hk : k ≤ 2048)
    (hseq : ∀ j, j < k → sequenceOf (d j) = (e + j) % 65536)
    (hop : ∀ j, j < k → opcodeOf (d j) ≠ net.OP_Fragment)
    (hlen : ∀ j, j < k → 4 ≤ (d j).length)
    (fuel : Nat) (hfuel : k < fuel) (s0 : State) (A : List Nat) (m : Nat) (s : State)
    (inv : InOrderAt d e k s0 A m s) (j : Nat) (hjk : j < k) (hjA : j ∉ A) :
    ∃ m' s', checkInboundPacket net fuel s (d j) = some s'
      ∧ InOrderAt d e k s0 (j :: A) m' s' := by
  have hmj : m ≤ j := by
    by_contra h
    exact hjA (inv.below j (by omega))
  unfold checkInboundPacket
  simp only [hseq j hjk, inv.expected]
  rcases Nat.eq_or_lt_of_le hmj with hEq | hLt
  · -- the expected datagram
    subst hEq
    have hcmp : compareSequence ((e + m) % 65536) ((e + m) % 65536) = SEQUENCE_PRESENT := by
      simp [compareSequence]
    have hl : ¬ ((d m).length < 4) := by
      have := hlen m hjk
      omega
    simp only [hcmp, if_neg hl]
    have hexp1 : ((e + m) % 65536 + 1) % 65536 = (e + (m + 1)) % 65536 := by omega
    simp only [hexp1]
    have hA1 : ∀ i, i ∈ m :: A → i < k := by
      intro i hi
      rcases List.mem_cons.mp hi with h | h
      · omega
      · exact inv.bound i h
    have hslots1 : SlotsFrom d e (m :: A) (m + 1)
        { s with
          mReadPacketQueue := s.mReadPacketQueue ++ [⟨(d m).drop 4⟩]
          mExpectedSeq := (e + (m + 1)) % 65536 } := by
      constructor
      · intro i hi hmi
        rcases List.mem_cons.mp hi with h | h
        · omega
        · exact inv.slots.held i h (by omega)
      · intro x hx
        apply inv.slots.free
        intro i hi hmi
        have : i ≠ m := by
          rintro rfl
          exact inv.notin hi
        exact hx i (List.mem_cons_of_mem _ hi) (by omega)
    obtain ⟨m', s', h1, h2, h3, h4, h5, h6, h7, h8, h9, h10, _⟩ :=
      checkAfterPacket_drain net d e k (m :: A) s0.mReadPacketQueue hk hA1 hop hlen fuel (m + 1) _
        (by omega) (by omega) rfl hslots1
        (by
          show s.mReadPacketQueue ++ [⟨(d m).drop 4⟩] = _
          rw [inv.queue, deliveredRun_succ, List.append_assoc])
    simp only [h5]
    refine ⟨m', _, rfl, ?_⟩
    constructor
    · exact h2
    · intro i hi
      by_cases him : i < m
      · exact List.mem_cons_of_mem _ (inv.below i him)
      · by_cases him2 : i = m
        · rw [him2]; exact List.mem_cons_self _ _
        · exact h3 i (by omega) hi
    · exact h4
    · exact hA1
    · exact h6
    · exact h7
    · exact ⟨h8.held, h8.free⟩
    · intro h0; omega
    · intro _
      refine ⟨s'.mSocket, ?_⟩
      show s'.mSocket ++ [((s'.mExpectedSeq + 65535) % 65536) % 65536] = _
      have hx : ((e + m') % 65536 + 65535) % 65536 % 65536 = (e + m' + 65535) % 65536 := by
        omega
      rw [h6, hx]
    · show s'.mSentPackets = _
      rw [h10]
      exact inv.sent
  · -- a datagram ahead of the expected one
    have hcmp : compareSequence ((e + j) % 65536) ((e + m) % 65536) = SEQUENCE_FUTURE := by
      apply compareSequence_ahead
      · exact Nat.mod_lt _ (by decide)
      · exact Nat.mod_lt _ (by decide)
      · omega
      · omega
    simp only [hcmp]
    refine ⟨m, _, rfl, ?_⟩
    constructor
    · exact inv.hmk
    · intro i hi
      exact List.mem_cons_of_mem _ (inv.below i hi)
    · intro h
      rcases List.mem_cons.mp h with h | h
      · omega
      · exact inv.notin h
    · intro i hi
      rcases List.mem_cons.mp hi with h | h
      · omega
      · exact inv.bound i h
    · rfl
    · exact inv.queue
    · constructor
      · intro i hi hmi
        show setSlot s.mFuturePackets ((e + j) % 65536) _ ((e + i) % 65536) = _
        rcases List.mem_cons.mp hi with h | h
        · rw [h]; exact setSlot_same _ _ _
        · have hik := inv.bound i h
          have hij : i ≠ j := by
            rintro rfl
            exact hjA h
          rw [setSlot_other _ _ _ _ (by omega)]
          exact inv.slots.held i h hmi
      · intro x hx
        show setSlot s.mFuturePackets ((e + j) % 65536) _ x = none
        have hxj : x ≠ (e + j) % 65536 := hx j (List.mem_cons_self _ _) hmj
        rw [setSlot_other _ _ _ _ hxj]
        apply inv.slots.free
        intro i hi hmi
        exact hx i (List.mem_cons_of_mem _ hi) hmi
    · exact inv.sockFirst
    · exact inv.sockLast
    · exact inv.sent

/-- A run of distinct new arrivals keeps the in-order invariant. -/
theorem feedPackets_arrivals (net : Network) (d : Nat → List Nat) (e k : Nat)
    (hk : k ≤ 2048)
    (hseq : ∀ j, j < k → sequenceOf (d j) = (e + j) % 65536)
    (hop : ∀ j, j < k → opcodeOf (d j) ≠ net.OP_Fragment)
    (hlen : ∀ j, j < k → 4 ≤ (d j).length)
    (fuel : Nat) (hfuel : k < fuel) (s0 : State) :
    ∀ (rest A : List Nat) (m : Nat) (s : State), InOrderAt d e k s0 A m s → rest.Nodup →
      (∀ j, j ∈ rest → j < k ∧ j ∉ A) →
      ∃ m' s', feedPackets net fuel s (rest.map d) = some s'
        ∧ InOrderAt d e k s0 (rest.reverse ++ A) m' s' := by
  intro rest
  induction rest with
  | nil =>
    intro A m s inv _ _
    exact ⟨m, s, rfl, by simpa using inv⟩
  | cons j rest ih =>
    intro A m s inv hnd hrest
    obtain ⟨hjk, hjA⟩ := hrest j (List.mem_cons_self _ _)
    obtain ⟨m1, s1, hstep, inv1⟩ :=
      checkInboundPacket_step net d e k hk hseq hop hlen fuel hfuel s0 A m s inv j hjk hjA
    obtain ⟨m2, s2, hfeed, inv2⟩ := ih (j :: A) m1 s1 inv1 (List.nodup_cons.mp hnd).2 (by
      intro i hi
      refine ⟨(hrest i (List.mem_cons_of_mem _ hi)).1, ?_⟩
      intro h
      rcases List.mem_cons.mp h with h | h
      · subst h
        exact (List.nodup_cons.mp hnd).1 hi
      · exact (hrest i (List.mem_cons_of_mem _ hi)).2 h)
    refine ⟨m2, s2, ?_, ?_⟩
    · simp only [List.map_cons, feedPackets, hstep]
      exact hfeed
    · simpa [List.reverse_cons, List.append_assoc] using inv2

/-- All `k` datagrams, in any order, from a channel with nothing buffered. -/
theorem feedPackets_perm (net : Network) (d : Nat → List Nat) (e k : Nat)
    (hk : k ≤ 2048) (he : e < 65536)
    (hseq : ∀ j, j < k → sequenceOf (d j) = (e + j) % 65536)
    (hop : ∀ j, j < k → opcodeOf (d j) ≠ net.OP_Fragment)
    (hlen : ∀ j, j < k → 4 ≤ (d j).length)
    (fuel : Nat) (hfuel : k < fuel) (s : State) (hexp : s.mExpectedSeq = e)
    (hempty : ∀ x, s.mFuturePackets x = none)
    (arrival : List Nat) (hperm : arrival.Perm (List.range k)) :
    ∃ s', feedPackets net fuel s (arrival.map d) = some s'
      ∧ s'.mReadPacketQueue = s.mReadPacketQueue ++ deliveredRun d k
      ∧ s'.mExpectedSeq = (e + k) % 65536
      ∧ (∀ x, s'.mFuturePackets x = none)
      ∧ (0 < k → ∃ l, s'.mSocket = l ++ [(e + k + 65535) % 65536])
      ∧ s'.mSentPackets = s.mSentPackets := by
  have inv0 : InOrderAt d e k s [] 0 s := by
    constructor
    · omega
    · intro j hj; omega
    · simp
    · intro j hj; cases hj
    · rw [hexp]; omega
    · simp [deliveredRun]
    · constructor
      · intro j hj; cases hj
      · intro x _; exact hempty x
    · intro _; rfl
    · intro h; omega
    · rfl
  have hmem : ∀ j, j ∈ arrival ↔ j < k := by
    intro j
    rw [hperm.mem_iff, List.mem_range]
  obtain ⟨m, s', hfeed, inv⟩ :=
    feedPackets_arrivals net d e k hk hseq hop hlen fuel hfuel s arrival [] 0 s inv0
      (hperm.nodup_iff.mpr (List.nodup_range k)) (by
        intro j hj
        exact ⟨(hmem j).mp hj, by simp⟩)
  have hm : m = k := by
    have h1 := inv.hmk
    have h2 := inv.notin
    by_contra hne
    apply h2
    simp only [List.append_nil, List.mem_reverse]
    exact (hmem m).mpr (by omega)
  subst hm
  refine ⟨s', hfeed, inv.queue, inv.expected, ?_, inv.sockLast, inv.sent⟩
  intro x
  apply inv.slots.free
  intro j hj hmj
  have := inv.bound j hj
  omega

/-- The sequence field of a built datagram. -/
theorem sequenceOf_dataDatagram (op seq : Nat) (body : List Nat) :
    sequenceOf (dataDatagram op seq body) = seq % 65536 := by
  simp only [sequenceOf, dataDatagram, toHostShort, List.cons_append, List.nil_append,
    List.getD_cons_succ, List.getD_cons_zero]
  omega

/-- The opcode field of a built datagram. -/
theorem opcodeOf_dataDatagram (op seq : Nat) (body : List Nat) :
    opcodeOf (dataDatagram op seq body) = op % 65536 := by
  simp only [opcodeOf, dataDatagram, toHostShort, List.cons_append, List.nil_append,
    List.getD_cons_succ, List.getD_cons_zero]
  omega

/-- C1, amended: for every start value `e`, every `k ≤ WINDOW_SIZE` and
every arrival order of `k` non-fragment data datagrams with the sequence
numbers `e .. e+k-1` (mod 65536), each fed once to `checkInboundPacket` on
a channel with ExpectedSequence `e` and nothing buffered, every call
returns and afterwards the DeliveryQueue has gained exactly the `k`
payloads (4-byte header stripped) in sequence order and ExpectedSequence
is `e + k`. -/
theorem feedPackets_in_order (net : Network) (d : Nat → List Nat) (e k : Nat)
    (hk : k ≤ WINDOW_SIZE) (he : e < 65536)
    (hseq : ∀ j, j < k → sequenceOf (d j) = (e + j) % 65536)
    (hop : ∀ j, j < k → opcodeOf (d j) ≠ net.OP_Fragment)
    (hlen : ∀ j, j < k → 4 ≤ (d j).length)
    (fuel : Nat) (hfuel : k < fuel) (s : State) (hexp : s.mExpectedSeq = e)
    (hempty : ∀ x, s.mFuturePackets x = none)
    (arrival : List Nat) (hperm : arrival.Perm (List.range k)) :
    ∃ s', feedPackets net fuel s (arrival.map d) = some s'
      ∧ s'.mReadPacketQueue
          = s.mReadPacketQueue ++ (List.range k).map (fun j => (⟨(d j).drop 4⟩ : ReadPacket))
      ∧ s'.mExpectedSeq = (e + k) % 65536 := by
  obtain ⟨s', h1, h2, h3, _⟩ :=
    feedPackets_perm net d e k hk he hseq hop hlen fuel hfuel s hexp hempty arrival hperm
  exact ⟨s', h1, h2, h3⟩

/-- Witness for the amended C1: the run 65534, 65535, 0 arriving as 0, 65534, 65535. -/
theorem feedPackets_in_order_witness :
    ∃ s', feedPackets acceptingNet 4 (expecting 65534) ([2, 0, 1].map (numbered 65534)) = some s'
      ∧ s'.mReadPacketQueue = [⟨[0]⟩, ⟨[1]⟩, ⟨[2]⟩]
      ∧ s'.mExpectedSeq = 1 :=
  feedPackets_in_order acceptingNet (numbered 65534) 65534 3 (by decide) (by decide)
    (by intro j hj; exact sequenceOf_dataDatagram _ _ _)
    (by
      intro j hj
      rw [numbered, opcodeOf_dataDatagram]
      decide)
    (by intro j hj; simp [numbered, dataDatagram])
    4 (by decide) (expecting 65534) rfl (fun _ => rfl) [2, 0, 1] (by decide)

/-- C1, as stated, fails for `k` above the window: with `e = 2048` and
`k = 2049`, the datagram 4096 arriving first is classified
`SEQUENCE_PAST` and dropped, so after all 2049 arrivals only 2048
payloads are queued and ExpectedSequence is 4096, not 4097. -/
theorem feedPackets_beyond_window :
    compareSequence (sequenceOf (numbered 2048 2048)) 2048 = SEQUENCE_PAST
    ∧ (2048 :: List.range 2048).Perm (List.range 2049)
    ∧ (∃ s', feedPackets acceptingNet 2049 (expecting 2048)
          ((2048 :: List.range 2048).map (numbered 2048)) = some s'
        ∧ s'.mExpectedSeq = 4096
        ∧ s'.mReadPacketQueue = deliveredRun (numbered 2048) 2048)
    ∧ ¬ (∃ s', feedPackets acceptingNet 2049 (expecting 2048)
          ((2048 :: List.range 2048).map (numbered 2048)) = some s'
        ∧ s'.mExpectedSeq = (2048 + 2049) % 65536) := by
  have hfirst : checkInboundPacket acceptingNet 2049 (expecting 2048) (numbered 2048 2048)
      = some (expecting 2048) := by
    rfl
  have hfeed : feedPackets acceptingNet 2049 (expecting 2048)
      ((2048 :: List.range 2048).map (numbered 2048))
      = feedPackets acceptingNet 2049 (expecting 2048) ((List.range 2048).map (numbered 2048)) := by
    rw [List.map_cons, feedPackets, hfirst]
  obtain ⟨s', h1, h2, h3, _⟩ :=
    feedPackets_perm acceptingNet (numbered 2048) 2048 2048 (le_refl _) (by decide)
      (by intro j hj; exact sequenceOf_dataDatagram _ _ _)
      (by
        intro j hj
        rw [numbered, opcodeOf_dataDatagram]
        decide)
      (by intro j hj; simp [numbered, dataDatagram])
      2049 (by decide) (expecting 2048) rfl (fun _ => rfl) (List.range 2048) (List.Perm.refl _)
  have h3' : s'.mExpectedSeq = 4096 := h3
  refine ⟨by decide, ?_, ⟨s', hfeed.trans h1, h3', ?_⟩, ?_⟩
  · have hr : List.range 2049 = List.range 2048 ++ [2048] := List.range_succ 2048
    rw [hr]
    exact (List.perm_append_singleton 2048 (List.range 2048)).symm
  · simpa [expecting, initState] using h2
  · rintro ⟨t, ht1, ht2⟩
    rw [hfeed, h1] at ht1
    cases ht1
    rw [h3'] at ht2
    revert ht2
    decide

/-! ## Reassembly of a fragmented message -/

/-- The scan over populated continuation slots returns the summed length. -/
theorem fragLength_present (p : Nat → List Nat) (fp : Nat → Option ReadPacket) (start : Nat) :
    ∀ (cnt fuel t len : Nat), cnt < fuel → cnt < 65536 → len < 4294967296 →
      (∀ j, t ≤ j → j < t + cnt → fp ((start + j) % 65536) = some ⟨p j⟩) →
      (∀ j, t ≤ j → j < t + cnt → 4 ≤ (p j).length) →
      fragLength fp ((start + t + cnt) % 65536) fuel ((start + t) % 65536) len
        = some ((len + (contBytes p t cnt).length) % 4294967296) := by
  intro cnt
  induction cnt with
  | zero =>
    intro fuel t len hf _ hlen _ _
    obtain ⟨fuel, rfl⟩ : ∃ f, fuel = f + 1 := ⟨fuel - 1, by omega⟩
    unfold fragLength
    have h0 : (start + t) % 65536 = (start + t + 0) % 65536 := rfl
    rw [if_pos h0]
    simp only [contBytes, List.length_nil]
    refine congrArg some ?_
    omega
  | succ cnt ih =>
    intro fuel t len hf hc hlen hpop hmin
    obtain ⟨fuel, rfl⟩ : ∃ f, fuel = f + 1 := ⟨fuel - 1, by omega⟩
    unfold fragLength
    have hne : (start + t) % 65536 ≠ (start + t + (cnt + 1)) % 65536 := by omega
    rw [if_neg hne, hpop t (le_refl _) (by omega)]
    simp only
    have hi : ((start + t) % 65536 + 1) % 65536 = (start + (t + 1)) % 65536 := by omega
    have he : (start + t + (cnt + 1)) % 65536 = (start + (t + 1) + cnt) % 65536 := by omega
    rw [hi, he]
    rw [ih fuel (t + 1) _ (by omega) (by omega) (Nat.mod_lt _ (by decide))
      (fun j h1 h2 => hpop j (by omega) (by omega))
      (fun j h1 h2 => hmin j (by omega) (by omega))]
    have h4 := hmin t (le_refl _) (by omega)
    simp only [contBytes, List.length_append, List.length_drop, ReadPacket.len]
    refine congrArg some ?_
    omega

/-- The copy loop over populated continuation slots, each of at least its
4 framing bytes, empties them and appends their payloads in order. -/
theorem fragCopy_present (p : Nat → List Nat) (start : Nat) :
    ∀ (cnt fuel t : Nat) (fp : Nat → Option ReadPacket) (out : List Nat),
      cnt < fuel → cnt < 65536 →
      (∀ j, t ≤ j → j < t + cnt → fp ((start + j) % 65536) = some ⟨p j⟩) →
      (∀ j, t ≤ j → j < t + cnt → 4 ≤ (p j).length) →
      ∃ fp', fragCopy ((start + t + cnt) % 65536) fuel ((start + t) % 65536) fp out
          = some (fp', out ++ contBytes p t cnt)
        ∧ (∀ j, t ≤ j → j < t + cnt → fp' ((start + j) % 65536) = none)
        ∧ (∀ x, (∀ j, t ≤ j → j < t + cnt → x ≠ (start + j) % 65536) → fp' x = fp x) := by
  intro cnt
  induction cnt with
  | zero =>
    intro fuel t fp out hf _ _ _
    obtain ⟨fuel, rfl⟩ : ∃ f, fuel = f + 1 := ⟨fuel - 1, by omega⟩
    unfold fragCopy
    have h0 : (start + t) % 65536 = (start + t + 0) % 65536 := rfl
    rw [if_pos h0]
    refine ⟨fp, ?_, ?_, ?_⟩
    · simp [contBytes]
    · intro j h1 h2
      omega
    · intro x _
      rfl
  | succ cnt ih =>
    intro fuel t fp out hf hc hpop hmin
    obtain ⟨fuel, rfl⟩ : ∃ f, fuel = f + 1 := ⟨fuel - 1, by omega⟩
    unfold fragCopy
    have hne : (start + t) % 65536 ≠ (start + t + (cnt + 1)) % 65536 := by omega
    have hl : ¬ (ReadPacket.len ⟨p t⟩ < 4) := by
      have := hmin t (le_refl _) (by omega)
      show ¬ ((p t).length < 4)
      omega
    rw [if_neg hne, hpop t (le_refl _) (by omega)]
    simp only [if_neg hl]
    have hi : ((start + t) % 65536 + 1) % 65536 = (start + (t + 1)) % 65536 := by omega
    have he : (start + t + (cnt + 1)) % 65536 = (start + (t + 1) + cnt) % 65536 := by omega
    rw [hi, he]
    obtain ⟨fp', h1, h2, h3⟩ := ih fuel (t + 1) (setSlot fp ((start + t) % 65536) none)
      (out ++ (p t).drop 4) (by omega) (by omega) (by
        intro j hj1 hj2
        rw [setSlot_other _ _ _ _ (by omega)]
        exact hpop j (by omega) (by omega))
      (fun j hj1 hj2 => hmin j (by omega) (by omega))
    refine ⟨fp', ?_, ?_, ?_⟩
    · rw [h1, contBytes, List.append_assoc]
    · intro j hj1 hj2
      by_cases hjt : j = t
      · subst hjt
        rw [h3 _ (by intro i hi1 hi2; omega)]
        exact setSlot_same _ _ _
      · exact h2 j (by omega) (by omega)
    · intro x hx
      rw [h3 x (by intro i hi1 hi2; exact hx i (by omega) (by omega))]
      exact setSlot_other _ _ _ _ (hx t (le_refl _) (by omega))

/-- `checkFragmentComplete` with every piece present and copied, and nothing
buffered at `mFragEnd`: reassemble, deliver if the checksum accepts, ack
`mFragEnd - 1`. -/
theorem checkFragmentComplete_complete (net : Network) (fuel : Nat) (s : State)
    (first : ReadPacket) (len : Nat) (r : (Nat → Option ReadPacket) × List Nat)
    (h1 : s.mFuturePackets s.mFragStart = some first)
    (h2 : fragLength s.mFuturePackets s.mFragEnd 65536 ((s.mFragStart + 1) % 65536)
        ((first.len + 4294967296 - 8) % 4294967296) = some len)
    (h8 : 8 ≤ first.len)
    (hr : fragCopy s.mFragEnd 65536 ((s.mFragStart + 1) % 65536)
        (setSlot s.mFuturePackets s.mFragStart none) (first.data.drop 8) = some r)
    (h3 : r.1 s.mFragEnd = none) :
    checkFragmentComplete net (fuel + 2) s = some (completedState net s r len) := by
  have hl : ¬ (first.len < 8) := by omega
  unfold checkFragmentComplete
  simp only [h1, h2, if_neg hl, hr]
  have h4 : checkAfterPacket net (fuel + 1) (completedState net s r len)
      = some (completedState net s r len) := by
    unfold checkAfterPacket
    have h5 : (completedState net s r len).mExpectedSeq = s.mFragEnd := rfl
    have h6 : (completedState net s r len).mFuturePackets = r.1 := rfl
    rw [h5, h6, h3]
  have h6 : (completedState net s r len).mExpectedSeq = s.mFragEnd := rfl
  unfold completedState at h4 h6
  simp only [h4, h6, ne_eq, not_true_eq_false, if_false]
  rfl

/-- The length of the reassembled message. -/
theorem reassembled_length (p : Nat → List Nat) (n : Nat) :
    (reassembled p n).length = ((p 0).length - 8) + (contBytes p 1 (n - 1)).length := by
  simp [reassembled]

/-- With every piece buffered, `checkFragmentComplete` delivers the message. -/
theorem checkFragmentComplete_done (net : Network) (p : Nat → List Nat) (start n L : Nat)
    (s0 : State) (A : List Nat) (s : State)
    (hstart : start < 65536) (hn1 : 1 ≤ n) (hn : n < 65536)
    (inv : FragAt p start n s0 A s) (hall : ∀ j, j < n → j ∈ A)
    (hhead : 8 ≤ (p 0).length) (hcont : ∀ j, 0 < j → j < n → 4 ≤ (p j).length)
    (hsum : (reassembled p n).length = L) (hL : L < 4294967296)
    (hcrc : net.validatePacket (reassembled p n) L = true)
    (fuel : Nat) (hfuel : 2 ≤ fuel) :
    ∃ s', checkFragmentComplete net fuel s = some s'
      ∧ s'.mReadPacketQueue = s0.mReadPacketQueue ++ [⟨reassembled p n⟩]
      ∧ s'.mExpectedSeq = (start + n) % 65536
      ∧ s'.mBuildingFrag = false
      ∧ s'.mSocket = s.mSocket ++ [(start + n + 65535) % 65536]
      ∧ s'.mSentPackets = s.mSentPackets
      ∧ (∀ x, s'.mFuturePackets x = none) := by
  obtain ⟨fuel, rfl⟩ : ∃ f, fuel = f + 2 := ⟨fuel - 2, by omega⟩
  have h0A : 0 ∈ A := hall 0 (by omega)
  have hfs : s.mFragStart = start := inv.fragStart h0A
  have hfe : s.mFragEnd = (start + n) % 65536 := inv.fragEnd h0A
  have hs0 : (start + 0) % 65536 = start := by omega
  have hfirst : s.mFuturePackets s.mFragStart = some ⟨p 0⟩ := by
    have := inv.slots.held 0 h0A (le_refl _)
    rw [hs0] at this
    rw [hfs]; exact this
  have hend : (start + 1 + (n - 1)) % 65536 = (start + n) % 65536 := by
    congr 1; omega
  -- the presence scan
  have hlen : fragLength s.mFuturePackets s.mFragEnd 65536 ((s.mFragStart + 1) % 65536)
      (((⟨p 0⟩ : ReadPacket).len + 4294967296 - 8) % 4294967296) = some L := by
    have h := fragLength_present p s.mFuturePackets start (n - 1) 65536 1
      (((⟨p 0⟩ : ReadPacket).len + 4294967296 - 8) % 4294967296) (by omega) (by omega)
      (Nat.mod_lt _ (by decide))
      (fun j h1 h2 => inv.slots.held j (hall j (by omega)) (Nat.zero_le _))
      (fun j h1 h2 => hcont j (by omega) (by omega))
    rw [hend] at h
    rw [hfs, hfe, h]
    refine congrArg some ?_
    have hr := reassembled_length p n
    rw [hsum] at hr
    simp only [ReadPacket.len]
    omega
  -- the copy
  have hcopy := fragCopy_present p start (n - 1) 65536 1
    (setSlot s.mFuturePackets start none) ((p 0).drop 8) (by omega) (by omega)
    (by
      intro j h1 h2
      rw [setSlot_other _ _ _ _ (by omega)]
      exact inv.slots.held j (hall j (by omega)) (Nat.zero_le _))
    (fun j h1 h2 => hcont j (by omega) (by omega))
  rw [hend] at hcopy
  obtain ⟨fp', hc1, hc2, hc3⟩ := hcopy
  have hnone : ∀ x, fp' x = none := by
    intro x
    by_cases hx : ∃ j, 1 ≤ j ∧ j < 1 + (n - 1) ∧ x = (start + j) % 65536
    · obtain ⟨j, hj1, hj2, rfl⟩ := hx
      exact hc2 j hj1 hj2
    · rw [hc3 x (by
        intro j hj1 hj2 hxe
        exact hx ⟨j, hj1, hj2, hxe⟩)]
      by_cases hxs : x = start
      · rw [hxs]; exact setSlot_same _ _ _
      · rw [setSlot_other _ _ _ _ hxs]
        apply inv.slots.free
        intro j hj _ hxe
        have hjn := inv.bound j hj
        by_cases hj0 : j = 0
        · apply hxs
          rw [hxe, hj0, hs0]
        · exact hx ⟨j, by omega, by omega, hxe⟩
  have hcs : completedState net s (fp', reassembled p n) L
      = sendAck
          { s with
            mFuturePackets := fp'
            mReadPacketQueue := s.mReadPacketQueue ++ [⟨reassembled p n⟩]
            mExpectedSeq := (start + n) % 65536
            mBuildingFrag := false }
          (((start + n) % 65536 + 65535) % 65536) := by
    unfold completedState
    simp only [hfe, hcrc]
    simp
  have hdone := checkFragmentComplete_complete net fuel s ⟨p 0⟩ L (fp', reassembled p n)
    hfirst hlen hhead (by rw [hfs, hfe]; exact hc1) (hnone _)
  refine ⟨_, hdone, ?_, ?_, ?_, ?_, ?_, ?_⟩
  · rw [hcs]
    show s.mReadPacketQueue ++ _ = _
    rw [inv.queue]
  · rw [hcs]; rfl
  · rw [hcs]; rfl
  · rw [hcs]
    show s.mSocket ++ [(((start + n) % 65536 + 65535) % 65536) % 65536] = _
    have : (((start + n) % 65536 + 65535) % 65536) % 65536 = (start + n + 65535) % 65536 := by
      omega
    rw [this]
  · rw [hcs]; rfl
  · intro x
    rw [hcs]
    exact hnone x

/-- With the head buffered and a piece still missing, `checkFragmentComplete`
leaves the state as it is. -/
theorem checkFragmentComplete_waiting (net : Network) (p : Nat → List Nat) (start n : Nat)
    (s0 : State) (A : List Nat) (s : State) (hstart : start < 65536) (hn : n < 65536)
    (inv : FragAt p start n s0 A s) (h0 : 0 ∈ A) (j : Nat) (hjn : j < n) (hjA : j ∉ A)
    (fuel : Nat) (hfuel : 1 ≤ fuel) :
    checkFragmentComplete net fuel s = some s := by
  obtain ⟨fuel, rfl⟩ : ∃ f, fuel = f + 1 := ⟨fuel - 1, by omega⟩
  have hfs : s.mFragStart = start := inv.fragStart h0
  have hfe : s.mFragEnd = (start + n) % 65536 := inv.fragEnd h0
  apply checkFragmentComplete_missing
  · rw [hfs]; exact hstart
  · rw [hfe]; exact Nat.mod_lt _ (by decide)
  · right
    refine ⟨j, ?_, ?_⟩
    · rw [hfs, hfe]; omega
    · rw [hfs]
      apply inv.slots.free
      intro i hi _
      have hin := inv.bound i hi
      have hij : i ≠ j := by
        rintro rfl
        exact hjA hi
      omega

/-- Buffering the piece at a new offset keeps the slot description. -/
theorem slotsFrom_store (p : Nat → List Nat) (start n : Nat) (A : List Nat) (s : State)
    (hn : n < 65536) (hA : ∀ i, i ∈ A → i < n) (hslots : SlotsFrom p start A 0 s)
    (j : Nat) (hjn : j < n) (s1 : State)
    (hs1 : s1.mFuturePackets = setSlot s.mFuturePackets ((start + j) % 65536) (some ⟨p j⟩)) :
    SlotsFrom p start (j :: A) 0 s1 := by
  constructor
  · intro i hi _
    rw [hs1]
    rcases List.mem_cons.mp hi with h | h
    · rw [h]; exact setSlot_same _ _ _
    · by_cases hij : i = j
      · rw [hij]; exact setSlot_same _ _ _
      · have hin := hA i h
        rw [setSlot_other _ _ _ _ (by omega)]
        exact hslots.held i h (Nat.zero_le _)
  · intro x hx
    rw [hs1]
    rw [setSlot_other _ _ _ _ (hx j (List.mem_cons_self _ _) (Nat.zero_le _))]
    apply hslots.free
    intro i hi h0
    exact hx i (List.mem_cons_of_mem _ hi) h0

/-- An arrival that leaves the message incomplete keeps the assembly invariant. -/
theorem checkInboundFragment_waiting (net : Network) (p : Nat → List Nat) (start n : Nat)
    (hstart : start < 65536) (hn : n < 65536)
    (hseq : ∀ j, j < n → sequenceOf (p j) = (start + j) % 65536)
    (hsize : (start + fragSizeOf (p 0) / 508 + 1) % 65536 = (start + n) % 65536)
    (fuel : Nat) (hfuel : 1 ≤ fuel) (s0 : State) (A : List Nat) (s : State)
    (inv : FragAt p start n s0 A s) (j : Nat) (hjn : j < n) (hjw : j < 2048) (hjA : j ∉ A)
    (j' : Nat) (hj'n : j' < n) (hj' : j' ∉ j :: A) :
    ∃ s', checkInboundFragment net fuel s (p j) = some s'
      ∧ FragAt p start n s0 (j :: A) s' := by
  have hbound : ∀ i, i ∈ j :: A → i < n := by
    intro i hi
    rcases List.mem_cons.mp hi with h | h
    · omega
    · exact inv.bound i h
  rcases s with ⟨e, b, fs, fe, fm, fp, sp, q, sk⟩
  have hexp : e = start := inv.expected
  subst hexp
  unfold checkInboundFragment
  simp only [hseq j hjn]
  rcases Nat.eq_zero_or_pos j with hj0 | hjpos
  · -- the head
    subst hj0
    have hs0 : (e + 0) % 65536 = e := by omega
    have hcmp : compareSequence ((e + 0) % 65536) e = SEQUENCE_PRESENT := by
      rw [hs0]; simp [compareSequence]
    simp only [hcmp]
    simp only [hs0, hsize]
    have inv1 : FragAt p e n s0 (0 :: A)
        ⟨e, true, e, (e + n) % 65536, e, setSlot fp e (some ⟨p 0⟩), sp, q, sk⟩ := by
      constructor
      · exact hbound
      · rfl
      · exact inv.queue
      · exact slotsFrom_store p e n A _ hn inv.bound inv.slots 0 hjn _ (by
          show setSlot fp e _ = setSlot fp ((e + 0) % 65536) _
          rw [hs0])
      · simp
      · intro _; rfl
      · intro _; rfl
    rw [checkFragmentComplete_waiting net p e n s0 (0 :: A) _ hstart hn inv1
      (List.mem_cons_self _ _) j' hj'n hj' fuel hfuel]
    simp only
    unfold checkInboundFragmentFuture
    have inv2 : FragAt p e n s0 (0 :: A)
        ⟨e, true, e, (e + n) % 65536, e,
          setSlot (setSlot fp e (some ⟨p 0⟩)) e (some ⟨p 0⟩), sp, q, sk⟩ := by
      constructor
      · exact hbound
      · rfl
      · exact inv.queue
      · constructor
        · intro i hi h0
          have := inv1.slots.held i hi h0
          by_cases hi0 : (e + i) % 65536 = e
          · rw [hi0] at this ⊢
            show setSlot _ e _ e = _
            rw [setSlot_same]
            have h2 : setSlot fp e (some ⟨p 0⟩) e = some ⟨p i⟩ := this
            rw [setSlot_same] at h2
            exact h2
          · show setSlot _ e _ _ = _
            rw [setSlot_other _ _ _ _ hi0]
            exact this
        · intro x hx
          have hxs : x ≠ e := by
            have := hx 0 (List.mem_cons_self _ _) (le_refl _)
            rw [hs0] at this
            exact this
          show setSlot _ e _ x = none
          rw [setSlot_other _ _ _ _ hxs]
          exact inv1.slots.free x hx
      · simp
      · intro _; rfl
      · intro _; rfl
    simp only [if_true]
    rw [checkFragmentComplete_waiting net p e n s0 (0 :: A) _ hstart hn inv2
      (List.mem_cons_self _ _) j' hj'n hj' fuel hfuel]
    simp only
    split
    · rename_i h
      exact absurd h.2 (by omega)
    · exact ⟨_, rfl, inv2⟩
  · -- a continuation
    have hcmp : compareSequence ((e + j) % 65536) e = SEQUENCE_FUTURE := by
      apply compareSequence_ahead
      · exact Nat.mod_lt _ (by decide)
      · exact hstart
      · omega
      · omega
    simp only [hcmp]
    unfold checkInboundFragmentFuture
    have h0j : 0 ∈ j :: A ↔ 0 ∈ A := by
      constructor
      · intro h
        rcases List.mem_cons.mp h with h | h
        · omega
        · exact h
      · exact List.mem_cons_of_mem _
    have inv1 : FragAt p e n s0 (j :: A)
        ⟨e, b, fs, fe, fm, setSlot fp ((e + j) % 65536) (some ⟨p j⟩), sp, q, sk⟩ := by
      constructor
      · exact hbound
      · rfl
      · exact inv.queue
      · exact slotsFrom_store p e n A _ hn inv.bound inv.slots j hjn _ rfl
      · rw [h0j]; exact inv.building
      · intro h; exact inv.fragStart (h0j.mp h)
      · intro h; exact inv.fragEnd (h0j.mp h)
    cases b with
    | false =>
      simp only [Bool.false_eq_true, if_false]
      exact ⟨_, rfl, inv1⟩
    | true =>
      simp only [if_true]
      have h0A : 0 ∈ A := inv.building.mp rfl
      rw [checkFragmentComplete_waiting net p e n s0 (j :: A) _ hstart hn inv1
        (h0j.mpr h0A) j' hj'n hj' fuel hfuel]
      simp only
      split
      · refine ⟨_, rfl, ?_⟩
        constructor
        · exact hbound
        · rfl
        · exact inv.queue
        · exact ⟨inv1.slots.held, inv1.slots.free⟩
        · exact inv1.building
        · exact inv1.fragStart
        · exact inv1.fragEnd
      · exact ⟨_, rfl, inv1⟩

/-- The arrival of the last missing piece delivers the message. -/
theorem checkInboundFragment_last (net : Network) (p : Nat → List Nat) (start n L : Nat)
    (hstart : start < 65536) (hn : n < 65536)
    (hseq : ∀ j, j < n → sequenceOf (p j) = (start + j) % 65536)
    (hsize : (start + fragSizeOf (p 0) / 508 + 1) % 65536 = (start + n) % 65536)
    (hhead : 8 ≤ (p 0).length) (hcont : ∀ j, 0 < j → j < n → 4 ≤ (p j).length)
    (hsum : (reassembled p n).length = L) (hL : L < 4294967296)
    (hcrc : net.validatePacket (reassembled p n) L = true)
    (fuel : Nat) (hfuel : 2 ≤ fuel) (s0 : State) (A : List Nat) (s : State)
    (inv : FragAt p start n s0 A s) (j : Nat) (hjn : j < n) (hjw : j < 2048) (hjA : j ∉ A)
    (hall : ∀ i, i < n → i ∈ j :: A) :
    ∃ s', checkInboundFragment net fuel s (p j) = some s'
      ∧ s'.mReadPacketQueue = s0.mReadPacketQueue ++ [⟨reassembled p n⟩]
      ∧ s'.mExpectedSeq = (start + n) % 65536
      ∧ s'.mBuildingFrag = false
      ∧ s'.mSocket = s.mSocket ++ [(start + n + 65535) % 65536]
      ∧ s'.mSentPackets = s.mSentPackets := by
  have hbound : ∀ i, i ∈ j :: A → i < n := by
    intro i hi
    rcases List.mem_cons.mp hi with h | h
    · omega
    · exact inv.bound i h
  rcases s with ⟨e, b, fs, fe, fm, fp, sp, q, sk⟩
  have hexp : e = start := inv.expected
  subst hexp
  unfold checkInboundFragment
  simp only [hseq j hjn]
  rcases Nat.eq_zero_or_pos j with hj0 | hjpos
  · -- the head arrives last
    subst hj0
    have hs0 : (e + 0) % 65536 = e := by omega
    have hcmp : compareSequence ((e + 0) % 65536) e = SEQUENCE_PRESENT := by
      rw [hs0]; simp [compareSequence]
    simp only [hcmp]
    simp only [hs0, hsize]
    have inv1 : FragAt p e n s0 (0 :: A)
        ⟨e, true, e, (e + n) % 65536, e, setSlot fp e (some ⟨p 0⟩), sp, q, sk⟩ := by
      constructor
      · exact hbound
      · rfl
      · exact inv.queue
      · exact slotsFrom_store p e n A _ hn inv.bound inv.slots 0 hjn _ (by
          show setSlot fp e _ = setSlot fp ((e + 0) % 65536) _
          rw [hs0])
      · simp
      · intro _; rfl
      · intro _; rfl
    obtain ⟨s2, hdone, hq2, he2, hb2, hk2, hsp2, _⟩ :=
      checkFragmentComplete_done net p e n L s0 (0 :: A) _ hstart (by omega) hn inv1 hall
        hhead hcont hsum hL hcrc fuel hfuel
    rw [hdone]
    simp only
    unfold checkInboundFragmentFuture
    simp only [hb2, Bool.false_eq_true, if_false]
    exact ⟨_, rfl, hq2, he2, rfl, hk2, hsp2⟩
  · -- a continuation arrives last
    have hcmp : compareSequence ((e + j) % 65536) e = SEQUENCE_FUTURE := by
      apply compareSequence_ahead
      · exact Nat.mod_lt _ (by decide)
      · exact hstart
      · omega
      · omega
    simp only [hcmp]
    unfold checkInboundFragmentFuture
    have h0A : 0 ∈ A := by
      rcases List.mem_cons.mp (hall 0 (by omega)) with h | h
      · omega
      · exact h
    have hbt : b = true := inv.building.mpr h0A
    subst hbt
    have inv1 : FragAt p e n s0 (j :: A)
        ⟨e, true, fs, fe, fm, setSlot fp ((e + j) % 65536) (some ⟨p j⟩), sp, q, sk⟩ := by
      constructor
      · exact hbound
      · rfl
      · exact inv.queue
      · exact slotsFrom_store p e n A _ hn inv.bound inv.slots j hjn _ rfl
      · simp [h0A]
      · intro _; exact inv.fragStart h0A
      · intro _; exact inv.fragEnd h0A
    obtain ⟨s2, hdone, hq2, he2, hb2, hk2, hsp2, _⟩ :=
      checkFragmentComplete_done net p e n L s0 (j :: A) _ hstart (by omega) hn inv1 hall
        hhead hcont hsum hL hcrc fuel hfuel
    simp only [if_true]
    rw [hdone]
    simp only [hb2, Bool.false_eq_true, false_and, if_false]
    exact ⟨_, rfl, hq2, he2, hb2, hk2, hsp2⟩

/-- A run of distinct new pieces that leaves one piece missing keeps the
assembly invariant. -/
theorem feedFragments_waiting (net : Network) (p : Nat → List Nat) (start n : Nat)
    (hstart : start < 65536) (hn : n < 65536)
    (hseq : ∀ j, j < n → sequenceOf (p j) = (start + j) % 65536)
    (hsize : (start + fragSizeOf (p 0) / 508 + 1) % 65536 = (start + n) % 65536)
    (fuel : Nat) (hfuel : 1 ≤ fuel) (s0 : State) (j' : Nat) (hj'n : j' < n) :
    ∀ (rest A : List Nat) (s : State), FragAt p start n s0 A s → rest.Nodup →
      (∀ j, j ∈ rest → j < n ∧ j < 2048 ∧ j ∉ A) → j' ∉ rest → j' ∉ A →
      ∃ s', feedFragments net fuel s (rest.map p) = some s'
        ∧ FragAt p start n s0 (rest.reverse ++ A) s' := by
  intro rest
  induction rest with
  | nil =>
    intro A s inv _ _ _ _
    exact ⟨s, rfl, by simpa using inv⟩
  | cons j rest ih =>
    intro A s inv hnd hrest hj'r hj'A
    obtain ⟨hjn, hjw, hjA⟩ := hrest j (List.mem_cons_self _ _)
    have hj'jA : j' ∉ j :: A := by
      intro h
      rcases List.mem_cons.mp h with h | h
      · exact hj'r (h ▸ List.mem_cons_self _ _)
      · exact hj'A h
    obtain ⟨s1, hstep, inv1⟩ :=
      checkInboundFragment_waiting net p start n hstart hn hseq hsize fuel hfuel s0 A s inv
        j hjn hjw hjA j' hj'n hj'jA
    obtain ⟨s2, hfeed, inv2⟩ := ih (j :: A) s1 inv1 (List.nodup_cons.mp hnd).2 (by
      intro i hi
      obtain ⟨h1, h2, h3⟩ := hrest i (List.mem_cons_of_mem _ hi)
      refine ⟨h1, h2, ?_⟩
      intro h
      rcases List.mem_cons.mp h with h | h
      · subst h
        exact (List.nodup_cons.mp hnd).1 hi
      · exact h3 h) (fun h => hj'r (List.mem_cons_of_mem _ h)) hj'jA
    refine ⟨s2, ?_, ?_⟩
    · simp only [List.map_cons, feedFragments, hstep]
      exact hfeed
    · simpa [List.reverse_cons, List.append_assoc] using inv2

/-- Distinct new pieces that together complete the message: the last
arrival delivers it. -/
theorem feedFragments_pieces (net : Network) (p : Nat → List Nat) (start n L : Nat)
    (hstart : start < 65536) (hn : n < 65536)
    (hseq : ∀ j, j < n → sequenceOf (p j) = (start + j) % 65536)
    (hsize : (start + fragSizeOf (p 0) / 508 + 1) % 65536 = (start + n) % 65536)
    (hhead : 8 ≤ (p 0).length) (hcont : ∀ j, 0 < j → j < n → 4 ≤ (p j).length)
    (hsum : (reassembled p n).length = L) (hL : L < 4294967296)
    (hcrc : net.validatePacket (reassembled p n) L = true)
    (fuel : Nat) (hfuel : 2 ≤ fuel) (s0 : State) :
    ∀ (rest A : List Nat) (s : State), FragAt p start n s0 A s → rest.Nodup → rest ≠ [] →
      (∀ j, j ∈ rest → j < n ∧ j < 2048 ∧ j ∉ A) → (∀ i, i < n → i ∈ rest ∨ i ∈ A) →
      ∃ s', feedFragments net fuel s (rest.map p) = some s'
        ∧ s'.mReadPacketQueue = s0.mReadPacketQueue ++ [⟨reassembled p n⟩]
        ∧ s'.mExpectedSeq = (start + n) % 65536
        ∧ s'.mBuildingFrag = false
        ∧ (∃ l, s'.mSocket = l ++ [(start + n + 65535) % 65536]) := by
  intro rest
  induction rest with
  | nil =>
    intro A s _ _ hne
    exact absurd rfl hne
  | cons j rest ih =>
    intro A s inv hnd _ hrest hcover
    obtain ⟨hjn, hjw, hjA⟩ := hrest j (List.mem_cons_self _ _)
    cases rest with
    | nil =>
      obtain ⟨s1, hstep, h1, h2, h3, h4, _⟩ :=
        checkInboundFragment_last net p start n L hstart hn hseq hsize hhead hcont hsum hL
          hcrc fuel hfuel s0 A s inv j hjn hjw hjA (by
            intro i hi
            rcases hcover i hi with h | h
            · exact List.mem_cons.mpr (Or.inl (List.mem_singleton.mp h))
            · exact List.mem_cons_of_mem _ h)
      refine ⟨s1, ?_, h1, h2, h3, _, h4⟩
      simp only [List.map_cons, List.map_nil, feedFragments, hstep]
    | cons j2 rest =>
      have hnd2 := List.nodup_cons.mp hnd
      obtain ⟨hj2n, _, hj2A⟩ := hrest j2 (List.mem_cons_of_mem _ (List.mem_cons_self _ _))
      have hj2 : j2 ∉ j :: A := by
        intro h
        rcases List.mem_cons.mp h with h | h
        · exact hnd2.1 (h ▸ List.mem_cons_self _ _)
        · exact hj2A h
      obtain ⟨s1, hstep, inv1⟩ :=
        checkInboundFragment_waiting net p start n hstart hn hseq hsize fuel (by omega) s0 A s
          inv j hjn hjw hjA j2 hj2n hj2
      obtain ⟨s2, hfeed, hres⟩ := ih (j :: A) s1 inv1 hnd2.2 (List.cons_ne_nil _ _) (by
        intro i hi
        obtain ⟨h1, h2, h3⟩ := hrest i (List.mem_cons_of_mem _ hi)
        refine ⟨h1, h2, ?_⟩
        intro h
        rcases List.mem_cons.mp h with h | h
        · subst h
          exact hnd2.1 hi
        · exact h3 h) (by
        intro i hi
        rcases hcover i hi with h | h
        · rcases List.mem_cons.mp h with h | h
          · right; rw [h]; exact List.mem_cons_self _ _
          · left; exact h
        · right; exact List.mem_cons_of_mem _ h)
      refine ⟨s2, ?_, hres⟩
      rw [List.map_cons, feedFragments, hstep]
      exact hfeed

/-- The declared length is a 32-bit value. -/
theorem fragSizeOf_lt (d : List Nat) : fragSizeOf d < 4294967296 := by
  unfold fragSizeOf toHostLong
  omega

/-- C2, amended: a message of `L` bytes split into a head at `start`
(declared length `L`, payload after 8 bytes) and `n - 1` continuations at
`start+1 .. start+n-1` (payload after 4 bytes), `n = L / 508 + 1`, the
payload lengths summing to `L`, with `n ≤ WINDOW_SIZE`: fed in any
arrival order to `checkInboundFragment` on a channel with ExpectedSequence
`start`, no active assembly and nothing buffered, the checksum accepting
the reassembled bytes, every call returns and afterwards the DeliveryQueue
has gained exactly one entry, the original `L` bytes, ExpectedSequence is
`start + n` and the last ack emitted is for `start + n - 1`. -/
theorem fragment_round_trip (net : Network) (p : Nat → List Nat) (start n L : Nat)
    (hstart : start < 65536) (hn : n = L / 508 + 1) (hw : n ≤ WINDOW_SIZE)
    (hdecl : fragSizeOf (p 0) = L)
    (hseq : ∀ j, j < n → sequenceOf (p j) = (start + j) % 65536)
    (hhead : 8 ≤ (p 0).length) (hcont : ∀ j, 0 < j → j < n → 4 ≤ (p j).length)
    (hsum : (reassembled p n).length = L)
    (hcrc : net.validatePacket (reassembled p n) L = true)
    (fuel : Nat) (hfuel : 2 ≤ fuel) (s : State) (hexp : s.mExpectedSeq = start)
    (hidle : s.mBuildingFrag = false) (hempty : ∀ x, s.mFuturePackets x = none)
    (arrival : List Nat) (hperm : arrival.Perm (List.range n)) :
    ∃ s', feedFragments net fuel s (arrival.map p) = some s'
      ∧ s'.mReadPacketQueue = s.mReadPacketQueue ++ [⟨reassembled p n⟩]
      ∧ s'.mExpectedSeq = (start + n) % 65536
      ∧ (∃ l, s'.mSocket = l ++ [(start + n + 65535) % 65536]) := by
  unfold WINDOW_SIZE at hw
  have hL : L < 4294967296 := by
    rw [← hdecl]; exact fragSizeOf_lt _
  have hsize : (start + fragSizeOf (p 0) / 508 + 1) % 65536 = (start + n) % 65536 := by
    rw [hdecl, hn, Nat.add_assoc]
  have inv0 : FragAt p start n s [] s := by
    constructor
    · intro j hj; cases hj
    · exact hexp
    · rfl
    · constructor
      · intro j hj; cases hj
      · intro x _; exact hempty x
    · simp [hidle]
    · intro h; cases h
    · intro h; cases h
  have hmem : ∀ j, j ∈ arrival ↔ j < n := by
    intro j
    rw [hperm.mem_iff, List.mem_range]
  have hne : arrival ≠ [] := by
    intro h
    have := (hmem 0).mpr (by omega)
    rw [h] at this
    cases this
  obtain ⟨s', h1, h2, h3, _, h5⟩ :=
    feedFragments_pieces net p start n L hstart (by omega) hseq hsize hhead hcont hsum hL hcrc
      fuel hfuel s arrival [] s inv0 (hperm.nodup_iff.mpr (List.nodup_range n)) hne
      (by
        intro j hj
        have := (hmem j).mp hj
        exact ⟨this, by omega, by simp⟩)
      (by
        intro i hi
        exact Or.inl ((hmem i).mpr hi))
  exact ⟨s', h1, h2, h3, h5⟩

/-- The length of a built datagram. -/
theorem length_dataDatagram (op seq : Nat) (body : List Nat) :
    (dataDatagram op seq body).length = body.length + 4 := by
  simp only [dataDatagram, List.length_append, List.length_cons, List.length_nil]
  omega

/-- The payload of a built datagram. -/
theorem drop_dataDatagram (op seq : Nat) (body : List Nat) :
    (dataDatagram op seq body).drop 4 = body := by
  simp only [dataDatagram, List.cons_append, List.nil_append, List.drop_succ_cons, List.drop_zero]

/-- The three pieces of the 1200-byte message carry 500, 504 and 196 bytes. -/
theorem piece1200_lengths :
    (piece1200 0).length = 508 ∧ (piece1200 1).length = 508 ∧ (piece1200 2).length = 200
    ∧ (reassembled piece1200 3).length = 1200 := by
  have h0 : piece1200 0 = [0, 13, 0, 50, 0, 0, 4, 176] ++ List.replicate 500 7 := rfl
  have h1 : piece1200 1 = dataDatagram 13 51 (List.replicate 504 8) := rfl
  have h2 : piece1200 2 = dataDatagram 13 52 (List.replicate 196 9) := rfl
  refine ⟨?_, ?_, ?_, ?_⟩
  · rw [h0, List.length_append, List.length_replicate]; rfl
  · rw [h1, length_dataDatagram, List.length_replicate]
  · rw [h2, length_dataDatagram, List.length_replicate]
  · have h31 : 3 - 1 = 1 + 1 := rfl
    rw [reassembled, h31, contBytes, contBytes, contBytes, h0, h1, h2, drop_dataDatagram,
      drop_dataDatagram]
    simp only [List.length_append, List.length_drop, List.length_replicate, List.length_cons,
      List.length_nil]

/-- Witness for the amended C2: `L = 1200` split 500/504/196 at `start = 50`,
arriving as 52, 50, 51: one delivery, ExpectedSequence 53, ack 52. -/
theorem fragment_round_trip_witness :
    ∃ s', feedFragments acceptingNet 2 (expecting 50) ([2, 0, 1].map piece1200) = some s'
      ∧ s'.mReadPacketQueue = [⟨reassembled piece1200 3⟩]
      ∧ s'.mExpectedSeq = 53
      ∧ (∃ l, s'.mSocket = l ++ [52]) :=
  fragment_round_trip acceptingNet piece1200 50 3 1200 (by decide) (by decide) (by decide)
    (by decide)
    (by
      intro j hj
      have h : j = 0 ∨ j = 1 ∨ j = 2 := by omega
      rcases h with h | h | h <;> subst h <;> decide)
    (by rw [piece1200_lengths.1]; decide)
    (by
      intro j h0 hj
      have h : j = 1 ∨ j = 2 := by omega
      rcases h with h | h <;> subst h
      · rw [piece1200_lengths.2.1]; decide
      · rw [piece1200_lengths.2.2.1]; decide)
    piece1200_lengths.2.2.2
    rfl 2 (by decide) (expecting 50) rfl rfl (fun _ => rfl) [2, 0, 1] (by decide)

/-- The continuation payloads of `bigPiece` are 508 bytes each. -/
theorem contBytes_bigPiece_length (cnt : Nat) : ∀ t, 1 ≤ t →
    (contBytes bigPiece t cnt).length = 508 * cnt := by
  induction cnt with
  | zero => intro t _; rfl
  | succ cnt ih =>
    intro t ht
    have ht0 : t ≠ 0 := by omega
    rw [contBytes, List.length_append, ih (t + 1) (by omega)]
    rw [bigPiece, if_neg ht0, drop_dataDatagram, List.length_replicate]
    omega

/-- C2, as stated, fails for a message of more than `WINDOW_SIZE` pieces:
`L = 1040388` at `start = 2048` gives `n = 2049`; the continuation 4096 is
classified `SEQUENCE_PAST` and dropped, so after all 2049 pieces have
arrived nothing is delivered and ExpectedSequence is still 2048. -/
theorem fragment_beyond_window_never_completes :
    fragSizeOf (bigPiece 0) = 1040388 ∧ 1040388 / 508 + 1 = 2049
    ∧ (reassembled bigPiece 2049).length = 1040388
    ∧ compareSequence (sequenceOf (bigPiece 2048)) 2048 = SEQUENCE_PAST
    ∧ (2048 :: List.range 2048).Perm (List.range 2049)
    ∧ ∃ s', feedFragments acceptingNet 2 (expecting 2048)
          ((2048 :: List.range 2048).map bigPiece) = some s'
        ∧ s'.mReadPacketQueue = []
        ∧ s'.mExpectedSeq = 2048 := by
  have hseq : ∀ j, j < 2049 → sequenceOf (bigPiece j) = (2048 + j) % 65536 := by
    intro j hj
    by_cases h0 : j = 0
    · subst h0; decide
    · rw [bigPiece, if_neg h0]
      exact sequenceOf_dataDatagram _ _ _
  have hfirst : checkInboundFragment acceptingNet 2 (expecting 2048) (bigPiece 2048)
      = some (expecting 2048) := by
    rfl
  have inv0 : FragAt bigPiece 2048 2049 (expecting 2048) [] (expecting 2048) := by
    constructor
    · intro j hj; cases hj
    · rfl
    · rfl
    · constructor
      · intro j hj; cases hj
      · intro x _; rfl
    · simp [expecting, initState]
    · intro h; cases h
    · intro h; cases h
  obtain ⟨s', hfeed, inv⟩ :=
    feedFragments_waiting acceptingNet bigPiece 2048 2049 (by decide) (by decide) hseq
      (by decide) 2 (by decide) (expecting 2048) 2048 (by decide) (List.range 2048) []
      (expecting 2048) inv0 (List.nodup_range _)
      (by
        intro j hj
        have := List.mem_range.mp hj
        exact ⟨by omega, this, by simp⟩)
      (by simp) (by simp)
  refine ⟨by decide, by decide, ?_, by decide, ?_, s', ?_, inv.queue, inv.expected⟩
  · have h2048 : 2049 - 1 = 2048 := by decide
    rw [reassembled_length, h2048, contBytes_bigPiece_length 2048 1 (le_refl _)]
    decide
  · have hr : List.range 2049 = List.range 2048 ++ [2048] := List.range_succ 2048
    rw [hr]
    exact (List.perm_append_singleton 2048 (List.range 2048)).symm
  · rw [List.map_cons, feedFragments, hfirst]
    exact hfeed

/-! ## Frame properties of the simple operations -/

/-- A datagram that leaves the channel as it is can be fed any number of times. -/
theorem feedPackets_replicate_same (net : Network) (fuel : Nat) (s : State) (packet : List Nat)
    (h : checkInboundPacket net fuel s packet = some s) :
    ∀ n, feedPackets net fuel s (List.replicate n packet) = some s := by
  intro n
  induction n with
  | zero => rfl
  | succ n ih =>
    rw [List.replicate_succ, feedPackets, h]
    exact ih

/-- A fragment datagram that leaves the channel as it is can be fed any number of times. -/
theorem feedFragments_replicate_same (net : Network) (fuel : Nat) (s : State)
    (packet : List Nat) (h : checkInboundFragment net fuel s packet = some s) :
    ∀ n, feedFragments net fuel s (List.replicate n packet) = some s := by
  intro n
  induction n with
  | zero => rfl
  | succ n ih =>
    rw [List.replicate_succ, feedFragments, h]
    exact ih

/-- C12: for every channel state and every datagram whose sequence number
`compareSequence` classifies `SEQUENCE_PAST`, `checkInboundPacket` and
`checkInboundFragment` return the state unchanged (every field, the ack
log included); so feeding the datagram any number of times gives the
state it started from. -/
theorem past_datagram_ignored (net : Network) (fuel : Nat) (s : State) (packet : List Nat)
    (hpast : compareSequence (sequenceOf packet) s.mExpectedSeq = SEQUENCE_PAST) :
    checkInboundPacket net fuel s packet = some s
    ∧ checkInboundFragment net fuel s packet = some s
    ∧ (∀ n, feedPackets net fuel s (List.replicate n packet) = some s)
    ∧ (∀ n, feedFragments net fuel s (List.replicate n packet) = some s) := by
  have h1 : checkInboundPacket net fuel s packet = some s := by
    unfold checkInboundPacket
    simp only [hpast]
  have h2 : checkInboundFragment net fuel s packet = some s := by
    unfold checkInboundFragment
    simp only [hpast]
  exact ⟨h1, h2, feedPackets_replicate_same net fuel s packet h1,
    feedFragments_replicate_same net fuel s packet h2⟩

/-- Witness for C12: sequence 8000 arriving while 10000 is expected. -/
theorem past_datagram_ignored_witness :
    compareSequence (sequenceOf (numbered 8000 0)) 10000 = SEQUENCE_PAST
    ∧ checkInboundPacket acceptingNet 0 (expecting 10000) (numbered 8000 0)
        = some (expecting 10000) :=
  ⟨by decide, (past_datagram_ignored acceptingNet 0 (expecting 10000) (numbered 8000 0)
    (by decide)).1⟩

/-- After `receiveAck seq` slot `seq` is empty. -/
theorem receiveAckLoop_head_none (n : Nat) (seq : Nat) (t : Nat → Option Packet) :
    receiveAckLoop (n + 1) seq t seq = none := by
  unfold receiveAckLoop
  cases hs : t seq with
  | none => simpa using hs
  | some p =>
    simp only
    exact receiveAckLoop_none _ _ _ _ (setSlot_same _ _ _)

/-- The release loop does nothing when slot `seq` is empty. -/
theorem receiveAckLoop_of_none (n : Nat) (seq : Nat) (t : Nat → Option Packet)
    (h : t seq = none) : receiveAckLoop n seq t = t := by
  cases n with
  | zero => rfl
  | succ n =>
    unfold receiveAckLoop
    rw [h]

/-- C16: for every SentRetention table and every `seq`, `receiveAck seq`
applied twice gives the same state as applied once. -/
theorem receiveAck_idempotent (s : State) (seq : Nat) :
    receiveAck (receiveAck s seq) seq = receiveAck s seq := by
  have h : receiveAckLoop WINDOW_SIZE seq (receiveAckLoop WINDOW_SIZE seq s.mSentPackets)
      = receiveAckLoop WINDOW_SIZE seq s.mSentPackets :=
    receiveAckLoop_of_none _ _ _ (receiveAckLoop_head_none 2047 seq s.mSentPackets)
  unfold receiveAck
  simp only [h]

/-- C18: `sendKeepAliveAck` appends exactly one ack, carrying
`(ExpectedSequence - 1) mod 65536` (65535 when ExpectedSequence is 0), and
leaves ExpectedSequence, PendingInbound, SentRetention, the DeliveryQueue
and the assembly fields unchanged. -/
theorem sendKeepAliveAck_effect (s : State) :
    (sendKeepAliveAck s).mSocket = s.mSocket ++ [(s.mExpectedSeq + 65535) % 65536]
    ∧ (s.mExpectedSeq = 0 → (sendKeepAliveAck s).mSocket = s.mSocket ++ [65535])
    ∧ (sendKeepAliveAck s).mExpectedSeq = s.mExpectedSeq
    ∧ (sendKeepAliveAck s).mFuturePackets = s.mFuturePackets
    ∧ (sendKeepAliveAck s).mSentPackets = s.mSentPackets
    ∧ (sendKeepAliveAck s).mReadPacketQueue = s.mReadPacketQueue
    ∧ (sendKeepAliveAck s).mBuildingFrag = s.mBuildingFrag
    ∧ (sendKeepAliveAck s).mFragStart = s.mFragStart
    ∧ (sendKeepAliveAck s).mFragEnd = s.mFragEnd
    ∧ (sendKeepAliveAck s).mFragMilestone = s.mFragMilestone := by
  have h : (sendKeepAliveAck s).mSocket = s.mSocket ++ [(s.mExpectedSeq + 65535) % 65536] := by
    show s.mSocket ++ [(s.mExpectedSeq + 65535) % 65536 % 65536] = _
    rw [Nat.mod_mod]
  refine ⟨h, ?_, rfl, rfl, rfl, rfl, rfl, rfl, rfl, rfl⟩
  intro h0
  rw [h, h0]

/-- The release loop changes only slots fewer than `n` steps behind `seq`. -/
theorem receiveAckLoop_changed (n : Nat) : ∀ (seq : Nat) (t : Nat → Option Packet) (x : Nat),
    seq < 65536 → n ≤ 65536 → receiveAckLoop n seq t x ≠ t x →
    ∃ j, j < n ∧ x = (seq + 65536 - j) % 65536 := by
  induction n with
  | zero =>
    intro seq t x _ _ h
    exact absurd rfl h
  | succ n ih =>
    intro seq t x hseq hn h
    unfold receiveAckLoop at h
    cases hs : t seq with
    | none =>
      rw [hs] at h
      exact absurd rfl h
    | some p =>
      rw [hs] at h
      simp only at h
      by_cases hx : x = seq
      · exact ⟨0, by omega, by omega⟩
      · have h2 : receiveAckLoop n ((seq + 65535) % 65536) (setSlot t seq none) x
            ≠ setSlot t seq none x := by
          rw [setSlot_other _ _ _ _ hx]
          exact h
        obtain ⟨j, hj, hxj⟩ := ih _ _ x (Nat.mod_lt _ (by decide)) (by omega) h2
        refine ⟨j + 1, by omega, ?_⟩
        rw [hxj]
        omega

/-- C19: `receiveAck seq` changes only slots fewer than `WINDOW_SIZE` steps
behind `seq`, so it empties at most `WINDOW_SIZE` slots; if the slots
`seq, seq-1, .., seq-WINDOW_SIZE` (cyclically) are all populated, then
afterwards `seq .. seq-WINDOW_SIZE+1` are empty and slot `seq-WINDOW_SIZE`
still holds its datagram. -/
theorem receiveAck_window_cap (s : State) (seq : Nat) (hseq : seq < 65536) :
    (∀ x, (receiveAck s seq).mSentPackets x ≠ s.mSentPackets x →
        ∃ j, j < WINDOW_SIZE ∧ x = (seq + 65536 - j) % 65536)
    ∧ ((∀ j, j ≤ WINDOW_SIZE → (s.mSentPackets ((seq + 65536 - j) % 65536)).isSome = true) →
        (∀ j, j < WINDOW_SIZE → (receiveAck s seq).mSentPackets ((seq + 65536 - j) % 65536) = none)
        ∧ (receiveAck s seq).mSentPackets ((seq + 65536 - WINDOW_SIZE) % 65536)
            = s.mSentPackets ((seq + 65536 - WINDOW_SIZE) % 65536)
        ∧ ((receiveAck s seq).mSentPackets ((seq + 65536 - WINDOW_SIZE) % 65536)).isSome
            = true) := by
  have hch : ∀ x, (receiveAck s seq).mSentPackets x ≠ s.mSentPackets x →
      ∃ j, j < WINDOW_SIZE ∧ x = (seq + 65536 - j) % 65536 :=
    fun x h => receiveAckLoop_changed WINDOW_SIZE seq s.mSentPackets x hseq (by decide) h
  refine ⟨hch, ?_⟩
  intro hpop
  have hkeep : (receiveAck s seq).mSentPackets ((seq + 65536 - WINDOW_SIZE) % 65536)
      = s.mSentPackets ((seq + 65536 - WINDOW_SIZE) % 65536) := by
    by_contra hne
    obtain ⟨j, hj, hx⟩ := hch _ hne
    unfold WINDOW_SIZE at hj hx
    omega
  refine ⟨?_, hkeep, ?_⟩
  · intro j hj
    show receiveAckLoop WINDOW_SIZE seq s.mSentPackets _ = none
    apply receiveAckLoop_released _ _ _ j hseq hj
    · unfold WINDOW_SIZE at hj; omega
    · intro i hi
      exact hpop i (by omega)
  · rw [hkeep]
    exact hpop WINDOW_SIZE (le_refl _)

/-- Witness for C19: with every slot populated, `receiveAck 3000` empties
slot 953 (2047 steps back) and leaves slot 952 (2048 steps back) populated. -/
theorem receiveAck_window_cap_witness :
    3000 < 65536
    ∧ (receiveAck fullyRetained 3000).mSentPackets 953 = none
    ∧ (receiveAck fullyRetained 3000).mSentPackets 952 = some [0, 9] :=
  ⟨by decide,
   ((receiveAck_window_cap fullyRetained 3000 (by decide)).2 (fun _ _ => rfl)).1 2047
      (by decide),
   (((receiveAck_window_cap fullyRetained 3000 (by decide)).2 (fun _ _ => rfl)).2.1).trans rfl⟩

/-! ## What the inbound operations preserve -/

/-- Every state extends itself. -/
theorem Extends.rfl (s : State) : Extends s s :=
  ⟨Eq.refl _, Eq.refl _, Eq.refl _, [], (List.append_nil _).symm⟩

/-- Extension composes. -/
theorem Extends.trans {a b c : State} (h1 : Extends a b) (h2 : Extends b c) : Extends a c := by
  obtain ⟨t1, ht1⟩ := h1.queue
  obtain ⟨t2, ht2⟩ := h2.queue
  exact ⟨h2.fragStart.trans h1.fragStart, h2.fragEnd.trans h1.fragEnd,
    h2.sent.trans h1.sent, t1 ++ t2, by rw [ht2, ht1, List.append_assoc]⟩

/-- Sending an ack keeps an extension. -/
theorem Extends.sendAck {a b : State} (h : Extends a b) (seq : Nat) :
    Extends a (sendAck b seq) :=
  ⟨h.fragStart, h.fragEnd, h.sent, h.queue⟩

/-- Whenever `checkFragmentComplete`, `checkAfterPacket` or the drain loop
returns, the result extends the state it started from and has the same
milestone. -/
theorem drain_extends (net : Network) : ∀ fuel : Nat,
    (∀ s s', checkFragmentComplete net fuel s = some s' →
        Extends s s' ∧ (s'.mFragMilestone = s.mFragMilestone))
    ∧ (∀ s s', checkAfterPacket net fuel s = some s' →
        Extends s s' ∧ (s'.mFragMilestone = s.mFragMilestone))
    ∧ (∀ i p s s', checkAfterLoop net fuel i p s = some s' →
        Extends s s' ∧ (s'.mFragMilestone = s.mFragMilestone)) := by
  intro fuel
  induction fuel with
  | zero =>
    refine ⟨?_, ?_, ?_⟩
    · intro s s' h; simp [checkFragmentComplete] at h
    · intro s s' h; simp [checkAfterPacket] at h
    · intro i p s s' h; simp [checkAfterLoop] at h
  | succ fuel ih =>
    obtain ⟨ih1, ih2, ih3⟩ := ih
    refine ⟨?_, ?_, ?_⟩
    · intro s s' h
      unfold checkFragmentComplete at h
      split at h
      · cases h; exact ⟨Extends.rfl _, rfl⟩
      · split at h
        · cases h; exact ⟨Extends.rfl _, rfl⟩
        · split at h
          · cases h
          · split at h
            · cases h
            · simp only at h
              split at h
              · cases h
              · rename_i s3 h3
                obtain ⟨e3, m3⟩ := ih2 _ _ h3
                have e2 : Extends s s3 := by
                  refine Extends.trans ?_ e3
                  refine ⟨rfl, rfl, rfl, ?_⟩
                  simp only [sendAck]
                  split
                  · exact ⟨_, rfl⟩
                  · exact ⟨[], (List.append_nil _).symm⟩
                split at h
                · cases h; exact ⟨e2.sendAck _, m3⟩
                · cases h; exact ⟨e2, m3⟩
    · intro s s' h
      unfold checkAfterPacket at h
      split at h
      · cases h; exact ⟨Extends.rfl _, rfl⟩
      · exact ih3 _ _ _ _ h
    · intro i p s s' h
      unfold checkAfterLoop at h
      simp only at h
      split at h
      · cases h
      · rename_i s1 hbody
        have e1 : Extends s s1 ∧ s1.mFragMilestone = s.mFragMilestone := by
          split at hbody
          · exact ih1 _ _ hbody
          · split at hbody
            · cases hbody
            · cases hbody
              exact ⟨⟨rfl, rfl, rfl, _, rfl⟩, rfl⟩
        split at h
        · split at h
          · cases h; exact e1
          · obtain ⟨e2, m2⟩ := ih3 _ _ _ _ h
            exact ⟨e1.1.trans e2, m2.trans e1.2⟩
        · obtain ⟨e2, m2⟩ := ih3 _ _ _ _ h
          exact ⟨e1.1.trans e2, m2.trans e1.2⟩

/-! ## Fragment heads, progress acks and the DeliveryQueue -/

/-- The sequence field is a 16-bit value. -/
theorem sequenceOf_lt (d : List Nat) : sequenceOf d < 65536 := by
  unfold sequenceOf toHostShort
  omega

/-- Whenever the `SEQUENCE_FUTURE` block returns, the result extends the
state it started from; the milestone is kept or becomes `seq`, the latter
only when `seq - milestone ≥ 10`. -/
theorem checkInboundFragmentFuture_extends (net : Network) (fuel : Nat) (s s' : State)
    (packet : List Nat) (seq : Nat)
    (h : checkInboundFragmentFuture net fuel s packet seq = some s') :
    Extends s s' ∧ (s'.mFragMilestone = s.mFragMilestone
      ∨ (s'.mFragMilestone = seq ∧ (seq : Int) - (s.mFragMilestone : Int) ≥ 10)) := by
  unfold checkInboundFragmentFuture at h
  simp only at h
  split at h
  · split at h
    · cases h
    · rename_i s2 h2
      obtain ⟨e2, m2⟩ := (drain_extends net fuel).1 _ _ h2
      have e1 : Extends s s2 := ⟨e2.fragStart, e2.fragEnd, e2.sent, e2.queue⟩
      have m1 : s2.mFragMilestone = s.mFragMilestone := m2
      split at h
      · rename_i hc
        cases h
        refine ⟨⟨e1.fragStart, e1.fragEnd, e1.sent, e1.queue⟩, Or.inr ⟨rfl, ?_⟩⟩
        rw [← m1]
        exact hc.2
      · cases h
        exact ⟨e1, Or.inl m1⟩
  · cases h
    exact ⟨⟨rfl, rfl, rfl, [], (List.append_nil _).symm⟩, Or.inl rfl⟩

/-- The test `(seq - mFragMilestone) >= 10` on line 110, both operands
promoted to `int`: for a fragment datagram classified `SEQUENCE_FUTURE`
that arrives while an assembly is active and is still incomplete after the
arrival, the call returns with the assembly still active; an ack for
`got` is emitted and the milestone becomes `got` when
`milestone + 10 ≤ got` as plain integers, and no ack is emitted and the
milestone is unchanged when `got < milestone + 10`. -/
theorem checkInboundFragment_progress_ack (net : Network) (fuel : Nat) (s : State)
    (packet : List Nat)
    (hcmp : compareSequence (sequenceOf packet) s.mExpectedSeq = SEQUENCE_FUTURE)
    (hactive : s.mBuildingFrag = true)
    (hstart : s.mFragStart < 65536) (hend : s.mFragEnd < 65536)
    (hmiss : setSlot s.mFuturePackets (sequenceOf packet) (some ⟨packet⟩) s.mFragStart = none ∨
      ∃ j, j < (s.mFragEnd + 65536 - s.mFragStart) % 65536 ∧
        setSlot s.mFuturePackets (sequenceOf packet) (some ⟨packet⟩)
          ((s.mFragStart + j) % 65536) = none) :
    ∃ s', checkInboundFragment net (fuel + 1) s packet = some s'
      ∧ s'.mBuildingFrag = true
      ∧ (s.mFragMilestone + 10 ≤ sequenceOf packet →
          s'.mSocket = s.mSocket ++ [sequenceOf packet]
          ∧ s'.mFragMilestone = sequenceOf packet)
      ∧ (sequenceOf packet < s.mFragMilestone + 10 →
          s'.mSocket = s.mSocket ∧ s'.mFragMilestone = s.mFragMilestone) := by
  rcases s with ⟨e, b, fs, fe, fm, fp, sp, q, sk⟩
  simp only at hcmp hactive hstart hend hmiss
  subst hactive
  unfold checkInboundFragment
  simp only [hcmp]
  unfold checkInboundFragmentFuture
  simp only [if_true]
  rw [checkFragmentComplete_missing net fuel _ hstart hend hmiss]
  simp only
  by_cases hten : fm + 10 ≤ sequenceOf packet
  · have hc : True ∧ (sequenceOf packet : Int) - (fm : Int) ≥ 10 :=
      ⟨trivial, by omega⟩
    rw [if_pos hc]
    refine ⟨_, rfl, rfl, ?_, ?_⟩
    · intro _
      refine ⟨?_, rfl⟩
      show sk ++ [sequenceOf packet % 65536] = _
      rw [Nat.mod_eq_of_lt (sequenceOf_lt packet)]
    · intro h; omega
  · have hc : ¬ (True ∧ (sequenceOf packet : Int) - (fm : Int) ≥ 10) := by
      intro h
      have := h.2
      omega
    rw [if_neg hc]
    refine ⟨_, rfl, rfl, ?_, ?_⟩
    · intro h; omega
    · intro _; exact ⟨rfl, rfl⟩

/-- C11 fails on the code: a head at 65530 declaring 13 pieces opens the
assembly `[65530, 7)` with milestone 65530; then the fragment datagram 5
arrives, classified `SEQUENCE_FUTURE`, and the assembly is still
incomplete. The cyclic difference `(5 - 65530) mod 65536` is 11, at least
10, yet no ack is emitted and the milestone stays 65530: line 110 compares
the `int` difference `5 - 65530 = -65525`. -/
theorem progress_ack_lost_across_wrap :
    compareSequence (sequenceOf wrapHead) 65530 = SEQUENCE_PRESENT
    ∧ compareSequence (sequenceOf (dataDatagram 13 5 [7])) 65530 = SEQUENCE_FUTURE
    ∧ (sequenceOf (dataDatagram 13 5 [7]) + 65536 - 65530) % 65536 = 11
    ∧ ∃ s1 s2, checkInboundFragment acceptingNet 1 (expecting 65530) wrapHead = some s1
        ∧ s1.mBuildingFrag = true ∧ s1.mFragStart = 65530 ∧ s1.mFragEnd = 7
        ∧ s1.mFragMilestone = 65530 ∧ s1.mSocket = []
        ∧ checkInboundFragment acceptingNet 1 s1 (dataDatagram 13 5 [7]) = some s2
        ∧ s2.mBuildingFrag = true ∧ s2.mFuturePackets 5 = some ⟨dataDatagram 13 5 [7]⟩
        ∧ s2.mSocket = [] ∧ s2.mFragMilestone = 65530 :=
  ⟨by decide, by decide, by decide, _, _, rfl, rfl, rfl, rfl, rfl, rfl, rfl, rfl, rfl, rfl, rfl⟩

/-- The `case SEQUENCE_PRESENT` block of `checkInboundFragment` up to the
call of `checkFragmentComplete`. -/
theorem checkInboundFragment_head_setup (net : Network) (fuel : Nat) (s : State)
    (packet : List Nat)
    (hcmp : compareSequence (sequenceOf packet) s.mExpectedSeq = SEQUENCE_PRESENT) :
    ∃ s1 : State, s1.mBuildingFrag = true ∧ s1.mFragStart = sequenceOf packet
      ∧ s1.mFragMilestone = sequenceOf packet
      ∧ s1.mFragEnd = (sequenceOf packet + fragSizeOf packet / 508 + 1) % 65536
      ∧ s1.mFuturePackets = setSlot s.mFuturePackets (sequenceOf packet) (some ⟨packet⟩)
      ∧ s1.mExpectedSeq = s.mExpectedSeq ∧ s1.mReadPacketQueue = s.mReadPacketQueue
      ∧ s1.mSocket = s.mSocket ∧ s1.mSentPackets = s.mSentPackets
      ∧ checkInboundFragment net fuel s packet
          = (match checkFragmentComplete net fuel s1 with
            | none => none
            | some s2 => checkInboundFragmentFuture net fuel s2 packet (sequenceOf packet)) := by
  refine ⟨{ s with
      mBuildingFrag := true
      mFragStart := sequenceOf packet
      mFragMilestone := sequenceOf packet
      mFuturePackets := setSlot s.mFuturePackets (sequenceOf packet) (some ⟨packet⟩)
      mFragEnd := (sequenceOf packet + fragSizeOf packet / 508 + 1) % 65536 },
    rfl, rfl, rfl, rfl, rfl, rfl, rfl, rfl, rfl, ?_⟩
  unfold checkInboundFragment
  simp only [hcmp]

/-- `checkFragmentComplete` with every piece of `[mFragStart, mFragEnd)`
buffered and nothing buffered at `mFragEnd` returns with the assembly
cleared, ExpectedSequence at `mFragEnd` and the slots emptied, whatever
the checksum answers. -/
theorem checkFragmentComplete_all_present (net : Network) (p : Nat → List Nat) (n : Nat)
    (s : State) (fuel : Nat)
    (hstart : s.mFragStart < 65536) (hn1 : 1 ≤ n) (hn : n < 65536)
    (hend : s.mFragEnd = (s.mFragStart + n) % 65536)
    (hpop : ∀ j, j < n → s.mFuturePackets ((s.mFragStart + j) % 65536) = some ⟨p j⟩)
    (hhead : 8 ≤ (p 0).length) (hcont : ∀ j, 0 < j → j < n → 4 ≤ (p j).length)
    (hgap : s.mFuturePackets s.mFragEnd = none) :
    ∃ cs : State, checkFragmentComplete net (fuel + 2) s = some cs
      ∧ cs.mBuildingFrag = false
      ∧ cs.mExpectedSeq = s.mFragEnd
      ∧ cs.mFragStart = s.mFragStart ∧ cs.mFragEnd = s.mFragEnd
      ∧ cs.mFragMilestone = s.mFragMilestone
      ∧ (∀ j, j < n → cs.mFuturePackets ((s.mFragStart + j) % 65536) = none)
      ∧ (∀ x, (∀ j, j < n → x ≠ (s.mFragStart + j) % 65536) →
          cs.mFuturePackets x = s.mFuturePackets x)
      ∧ cs.mSocket = s.mSocket ++ [(s.mFragEnd + 65535) % 65536]
      ∧ cs.mSentPackets = s.mSentPackets := by
  rcases s with ⟨ex, bf, start, fe, fm, fp, sp, q, sk⟩
  simp only at hstart hend hpop hgap
  subst hend
  have hs0 : (start + 0) % 65536 = start := by omega
  have hfirst : fp start = some ⟨p 0⟩ := by
    have := hpop 0 (by omega)
    rw [hs0] at this
    exact this
  have hend2 : (start + 1 + (n - 1)) % 65536 = (start + n) % 65536 := by
    have : start + 1 + (n - 1) = start + n := by omega
    rw [this]
  have hlen := fragLength_present p fp start (n - 1) 65536 1
      (((⟨p 0⟩ : ReadPacket).len + 4294967296 - 8) % 4294967296) (by omega) (by omega)
      (Nat.mod_lt _ (by decide))
      (fun j h1 h2 => hpop j (by omega))
      (fun j h1 h2 => hcont j (by omega) (by omega))
  rw [hend2] at hlen
  have hcopy := fragCopy_present p start (n - 1) 65536 1
    (setSlot fp start none) ((p 0).drop 8) (by omega) (by omega)
    (by
      intro j h1 h2
      rw [setSlot_other _ _ _ _ (by omega)]
      exact hpop j (by omega))
    (fun j h1 h2 => hcont j (by omega) (by omega))
  rw [hend2] at hcopy
  obtain ⟨fp', hc1, hc2, hc3⟩ := hcopy
  have hcleared : ∀ j, j < n → fp' ((start + j) % 65536) = none := by
    intro j hj
    rcases Nat.eq_zero_or_pos j with hj0 | hjpos
    · subst hj0
      rw [hc3 _ (by intro i hi1 hi2; omega), hs0]
      exact setSlot_same _ _ _
    · exact hc2 j (by omega) (by omega)
  have hothers : ∀ x, (∀ j, j < n → x ≠ (start + j) % 65536) → fp' x = fp x := by
    intro x hx
    rw [hc3 x (fun i hi1 hi2 => hx i (by omega))]
    have := hx 0 (by omega)
    rw [hs0] at this
    exact setSlot_other _ _ _ _ this
  refine ⟨_, checkFragmentComplete_complete net fuel _ ⟨p 0⟩ _ _ hfirst hlen hhead hc1 ?_,
    rfl, rfl, rfl, rfl, rfl, hcleared, hothers, ?_, rfl⟩
  · show fp' ((start + n) % 65536) = none
    rw [hothers _ (by intro j hj; omega)]
    exact hgap
  · show sk ++ _ = sk ++ _
    rw [Nat.mod_mod]


/-- Every state `checkInboundFragment` returns for a head classified
`SEQUENCE_PRESENT` has the bounds and the milestone set from that head:
nothing run afterwards writes `mFragStart` or `mFragEnd`, and the progress
ack does not fire for the head itself. -/
theorem checkInboundFragment_head_fields (net : Network) (fuel : Nat) (s s' : State)
    (packet : List Nat)
    (hcmp : compareSequence (sequenceOf packet) s.mExpectedSeq = SEQUENCE_PRESENT)
    (h : checkInboundFragment net fuel s packet = some s') :
    s'.mFragStart = sequenceOf packet ∧ s'.mFragMilestone = sequenceOf packet
      ∧ s'.mFragEnd = (sequenceOf packet + fragSizeOf packet / 508 + 1) % 65536 := by
  unfold checkInboundFragment at h
  simp only [hcmp] at h
  split at h
  · cases h
  · rename_i s2 h2
    obtain ⟨e2, m2⟩ := (drain_extends net fuel).1 _ _ h2
    obtain ⟨e3, m3⟩ := checkInboundFragmentFuture_extends net fuel s2 s' packet _ h
    refine ⟨e3.fragStart.trans e2.fragStart, ?_, e3.fragEnd.trans e2.fragEnd⟩
    rcases m3 with m3 | ⟨_, m3⟩
    · exact m3.trans m2
    · rw [m2] at m3
      have : ((sequenceOf packet : Int) - (sequenceOf packet : Int)) ≥ 10 := m3
      omega

/-- C17, as stated, fails: a head at 50 declaring 2 bytes is the whole
message (`end = 51`); the message completes within the call, and on return
the assembly is not active, although `start`, `milestone` and `end` are
set as the claim says. -/
theorem head_completed_on_arrival :
    compareSequence (sequenceOf completeHead50) (expecting 50).mExpectedSeq = SEQUENCE_PRESENT
    ∧ fragSizeOf completeHead50 = 2
    ∧ ∃ s', checkInboundFragment acceptingNet 2 (expecting 50) completeHead50 = some s'
      ∧ s'.mBuildingFrag = false
      ∧ s'.mFragStart = 50 ∧ s'.mFragMilestone = 50 ∧ s'.mFragEnd = 51
      ∧ s'.mExpectedSeq = 51 ∧ s'.mReadPacketQueue = [⟨[5, 6]⟩] :=
  ⟨by decide, by decide, _, rfl, rfl, rfl, rfl, rfl, rfl, rfl⟩

/-- C17, amended: when `checkInboundFragment` receives a head classified
`SEQUENCE_PRESENT` at `got` declaring the length `L`, the assembly is set
up active with `start = got`, `milestone = got` and
`end = (got + L / 508 + 1) mod 65536`, and the call goes on from that
state; every state the call returns has these three values; when a
continuation slot of `[got, end)` is still empty the call returns with the
assembly active; when every continuation of `[got, end)` is already
buffered (and nothing is buffered at `end`) the message completes within
the call, which returns with the assembly cleared and ExpectedSequence at
`end`. -/
theorem checkInboundFragment_head_span (net : Network) (fuel : Nat) (s : State)
    (packet : List Nat)
    (hcmp : compareSequence (sequenceOf packet) s.mExpectedSeq = SEQUENCE_PRESENT) :
    (∃ s1 : State, s1.mBuildingFrag = true ∧ s1.mFragStart = sequenceOf packet
        ∧ s1.mFragMilestone = sequenceOf packet
        ∧ s1.mFragEnd = (sequenceOf packet + fragSizeOf packet / 508 + 1) % 65536
        ∧ checkInboundFragment net fuel s packet
            = (match checkFragmentComplete net fuel s1 with
              | none => none
              | some s2 => checkInboundFragmentFuture net fuel s2 packet (sequenceOf packet)))
    ∧ (∀ s', checkInboundFragment net fuel s packet = some s' →
        s'.mFragStart = sequenceOf packet ∧ s'.mFragMilestone = sequenceOf packet
        ∧ s'.mFragEnd = (sequenceOf packet + fragSizeOf packet / 508 + 1) % 65536)
    ∧ (∀ j, 0 < j → j < (fragSizeOf packet / 508 + 1) % 65536 →
        s.mFuturePackets ((sequenceOf packet + j) % 65536) = none →
        ∃ s', checkInboundFragment net (fuel + 1) s packet = some s'
          ∧ s'.mBuildingFrag = true
          ∧ s'.mFragStart = sequenceOf packet ∧ s'.mFragMilestone = sequenceOf packet
          ∧ s'.mFragEnd = (sequenceOf packet + fragSizeOf packet / 508 + 1) % 65536)
    ∧ (∀ p : Nat → List Nat, 1 ≤ (fragSizeOf packet / 508 + 1) % 65536 →
        8 ≤ packet.length →
        (∀ j, 0 < j → j < (fragSizeOf packet / 508 + 1) % 65536 →
          s.mFuturePackets ((sequenceOf packet + j) % 65536) = some ⟨p j⟩
          ∧ 4 ≤ (p j).length) →
        s.mFuturePackets ((sequenceOf packet + fragSizeOf packet / 508 + 1) % 65536) = none →
        ∃ s', checkInboundFragment net (fuel + 2) s packet = some s'
          ∧ s'.mBuildingFrag = false
          ∧ s'.mFragStart = sequenceOf packet ∧ s'.mFragMilestone = sequenceOf packet
          ∧ s'.mFragEnd = (sequenceOf packet + fragSizeOf packet / 508 + 1) % 65536
          ∧ s'.mExpectedSeq = (sequenceOf packet + fragSizeOf packet / 508 + 1) % 65536) := by
  have hlt := sequenceOf_lt packet
  have hfields : ∀ f s', checkInboundFragment net f s packet = some s' →
      s'.mFragStart = sequenceOf packet ∧ s'.mFragMilestone = sequenceOf packet
      ∧ s'.mFragEnd = (sequenceOf packet + fragSizeOf packet / 508 + 1) % 65536 :=
    fun f s' h => checkInboundFragment_head_fields net f s s' packet hcmp h
  refine ⟨?_, hfields fuel, ?_, ?_⟩
  · obtain ⟨s1, h1, h2, h3, h4, _, _, _, _, _, h10⟩ :=
      checkInboundFragment_head_setup net fuel s packet hcmp
    exact ⟨s1, h1, h2, h3, h4, h10⟩
  · intro j hj0 hjn hnone
    suffices hret : ∃ s', checkInboundFragment net (fuel + 1) s packet = some s'
        ∧ s'.mBuildingFrag = true by
      obtain ⟨s', h1, h2⟩ := hret
      exact ⟨s', h1, h2, hfields _ s' h1⟩
    rcases s with ⟨e, b, fs, fe, fm, fp, sp, q, sk⟩
    unfold checkInboundFragment
    simp only [hcmp]
    have hne : (sequenceOf packet + j) % 65536 ≠ sequenceOf packet := by omega
    have hdist : j < ((sequenceOf packet + fragSizeOf packet / 508 + 1) % 65536 + 65536
        - sequenceOf packet) % 65536 := by omega
    rw [checkFragmentComplete_missing net fuel _ hlt (Nat.mod_lt _ (by decide))
      (Or.inr ⟨j, hdist, by
        show setSlot fp _ _ _ = none
        rw [setSlot_other _ _ _ _ hne]
        exact hnone⟩)]
    simp only
    unfold checkInboundFragmentFuture
    simp only [if_true]
    rw [checkFragmentComplete_missing net fuel _ hlt (Nat.mod_lt _ (by decide))
      (Or.inr ⟨j, hdist, by
        show setSlot (setSlot fp _ _) _ _ _ = none
        rw [setSlot_other _ _ _ _ hne, setSlot_other _ _ _ _ hne]
        exact hnone⟩)]
    simp only
    split
    · rename_i hc
      have := hc.2
      omega
    · exact ⟨_, rfl, rfl⟩
  · intro p hn1 hlen8 hbuf hgap
    suffices hret : ∃ s', checkInboundFragment net (fuel + 2) s packet = some s'
        ∧ s'.mBuildingFrag = false
        ∧ s'.mExpectedSeq = (sequenceOf packet + fragSizeOf packet / 508 + 1) % 65536 by
      obtain ⟨s', h1, h2, h3⟩ := hret
      obtain ⟨f1, f2, f3⟩ := hfields _ s' h1
      exact ⟨s', h1, h2, f1, f2, f3, h3⟩
    obtain ⟨s1, _, h2, _, h4, h5, _, _, _, _, h10⟩ :=
      checkInboundFragment_head_setup net (fuel + 2) s packet hcmp
    have hn : (fragSizeOf packet / 508 + 1) % 65536 < 65536 := Nat.mod_lt _ (by decide)
    obtain ⟨cs, c1, c2, c3, _⟩ :=
      checkFragmentComplete_all_present net (fun j => if j = 0 then packet else p j)
        ((fragSizeOf packet / 508 + 1) % 65536) s1 fuel (by rw [h2]; exact hlt) hn1 hn
        (by rw [h4, h2]; omega)
        (by
          intro j hj
          rw [h5, h2]
          by_cases hj0 : j = 0
          · subst hj0
            have : (sequenceOf packet + 0) % 65536 = sequenceOf packet := by omega
            rw [this, setSlot_same]
            rfl
          · rw [setSlot_other _ _ _ _ (by omega)]
            simp only [if_neg hj0]
            exact (hbuf j (by omega) hj).1)
        (by simpa using hlen8)
        (by
          intro j hj0 hj
          have hne : j ≠ 0 := by omega
          simp only [if_neg hne]
          exact (hbuf j hj0 hj).2)
        (by
          rw [h5, h4, setSlot_other _ _ _ _ (by omega)]
          exact hgap)
    rw [h10, c1]
    simp only
    unfold checkInboundFragmentFuture
    simp only [c2]
    refine ⟨_, rfl, rfl, ?_⟩
    show cs.mExpectedSeq = _
    rw [c3, h4]

/-- Witness for the amended C17: `got = 50`, `L = 1200` gives `end = 53`. -/
theorem checkInboundFragment_head_span_witness :
    compareSequence (sequenceOf (piece1200 0)) 50 = SEQUENCE_PRESENT
    ∧ fragSizeOf (piece1200 0) = 1200
    ∧ ∃ s', checkInboundFragment acceptingNet 1 (expecting 50) (piece1200 0) = some s'
      ∧ s'.mBuildingFrag = true ∧ s'.mFragStart = 50 ∧ s'.mFragMilestone = 50
      ∧ s'.mFragEnd = 53 :=
  ⟨by decide, by decide,
   (checkInboundFragment_head_span acceptingNet 0 (expecting 50) (piece1200 0)
      (by decide)).2.2.1 1 (by decide) (by decide) rfl⟩

/-- C20: for every channel state and every channel operation that returns,
the DeliveryQueue afterwards is the DeliveryQueue before with entries
appended (possibly none): nothing queued is removed, changed or reordered. -/
theorem deliveryQueue_append_only (net : Network) (fuel : Nat) (s : State)
    (packet : List Nat) (sent : Packet) (seq : Nat) :
    (∀ s', checkInboundPacket net fuel s packet = some s' →
        ∃ t, s'.mReadPacketQueue = s.mReadPacketQueue ++ t)
    ∧ (∀ s', checkInboundFragment net fuel s packet = some s' →
        ∃ t, s'.mReadPacketQueue = s.mReadPacketQueue ++ t)
    ∧ (∀ s', checkFragmentComplete net fuel s = some s' →
        ∃ t, s'.mReadPacketQueue = s.mReadPacketQueue ++ t)
    ∧ (∀ s', checkAfterPacket net fuel s = some s' →
        ∃ t, s'.mReadPacketQueue = s.mReadPacketQueue ++ t)
    ∧ (∃ t, (receiveAck s seq).mReadPacketQueue = s.mReadPacketQueue ++ t)
    ∧ (∃ t, (recordSentPacket s sent seq).mReadPacketQueue = s.mReadPacketQueue ++ t)
    ∧ (∃ t, (sendKeepAliveAck s).mReadPacketQueue = s.mReadPacketQueue ++ t) := by
  refine ⟨?_, ?_, ?_, ?_, ⟨[], (List.append_nil _).symm⟩, ⟨[], (List.append_nil _).symm⟩,
    ⟨[], (List.append_nil _).symm⟩⟩
  · intro s' h
    unfold checkInboundPacket at h
    simp only at h
    split at h
    · split at h
      · cases h
      · split at h
        · cases h
        · rename_i s2 h2
          cases h
          obtain ⟨t, ht⟩ := ((drain_extends net fuel).2.1 _ _ h2).1.queue
          exact ⟨_ :: t, by
            show s2.mReadPacketQueue = _
            rw [ht]
            show (s.mReadPacketQueue ++ [_]) ++ t = _
            rw [List.append_assoc]; rfl⟩
    · cases h
      exact ⟨[], (List.append_nil _).symm⟩
    · cases h
      exact ⟨[], (List.append_nil _).symm⟩
  · intro s' h
    unfold checkInboundFragment at h
    simp only at h
    split at h
    · split at h
      · cases h
      · rename_i s2 h2
        obtain ⟨t2, ht2⟩ := ((drain_extends net fuel).1 _ _ h2).1.queue
        obtain ⟨t3, ht3⟩ := (checkInboundFragmentFuture_extends net fuel s2 s' packet _ h).1.queue
        exact ⟨t2 ++ t3, by
          rw [ht3, ht2]
          show (s.mReadPacketQueue ++ t2) ++ t3 = _
          rw [List.append_assoc]⟩
    · exact (checkInboundFragmentFuture_extends net fuel s s' packet _ h).1.queue
    · cases h
      exact ⟨[], (List.append_nil _).symm⟩
  · intro s' h
    exact ((drain_extends net fuel).1 _ _ h).1.queue
  · intro s' h
    exact ((drain_extends net fuel).2.1 _ _ h).1.queue

/-! ## Draining the buffer after an in-order datagram -/

/-- The `while` loop of `checkAfterPacket` over a run of `r + 1` buffered
non-fragment datagrams `b c .. b (c + r)` followed by an empty slot: it
delivers their payloads in order, empties their slots and stops with
ExpectedSequence on the empty slot. -/
theorem checkAfterLoop_run (net : Network) (e : Nat) (b : Nat → List Nat) :
    ∀ (r fuel c : Nat) (s : State), r < fuel → r < 65535 →
      s.mExpectedSeq = (e + c) % 65536 →
      (∀ i, c ≤ i → i ≤ c + r → s.mFuturePackets ((e + i) % 65536) = some ⟨b i⟩) →
      (∀ i, c ≤ i → i ≤ c + r → opcodeOf (b i) ≠ net.OP_Fragment) →
      (∀ i, c ≤ i → i ≤ c + r → 4 ≤ (b i).length) →
      s.mFuturePackets ((e + (c + r + 1)) % 65536) = none →
      ∃ s', checkAfterLoop net fuel ((e + c) % 65536) ⟨b c⟩ s = some s'
        ∧ s'.mExpectedSeq = (e + (c + r + 1)) % 65536
        ∧ s'.mReadPacketQueue = s.mReadPacketQueue
            ++ (List.range' c (r + 1)).map (fun i => (⟨(b i).drop 4⟩ : ReadPacket))
        ∧ (∀ i, c ≤ i → i ≤ c + r → s'.mFuturePackets ((e + i) % 65536) = none)
        ∧ (∀ x, (∀ i, c ≤ i → i ≤ c + r → x ≠ (e + i) % 65536) →
            s'.mFuturePackets x = s.mFuturePackets x)
        ∧ s'.mSocket = s.mSocket ∧ s'.mSentPackets = s.mSentPackets
        ∧ s'.mBuildingFrag = s.mBuildingFrag ∧ s'.mFragStart = s.mFragStart
        ∧ s'.mFragEnd = s.mFragEnd ∧ s'.mFragMilestone = s.mFragMilestone := by
  intro r
  induction r with
  | zero =>
    intro fuel c s hf _ hexp hpop hop hlen hgap
    obtain ⟨fuel, rfl⟩ : ∃ f, fuel = f + 1 := ⟨fuel - 1, by omega⟩
    rcases s with ⟨ex, bf, fs, fe, fm, fp, sp, q, sk⟩
    simp only at hexp hpop hgap
    subst hexp
    have hl : ¬ (ReadPacket.len ⟨b c⟩ < 4) := by
      have := hlen c (le_refl _) (by omega)
      show ¬ ((b c).length < 4)
      omega
    unfold checkAfterLoop
    simp only [if_neg (hop c (le_refl _) (by omega)), if_neg hl]
    have hexp1 : ((e + c) % 65536 + 1) % 65536 = (e + (c + 0 + 1)) % 65536 := by omega
    have hne : (e + c) % 65536 ≠ (e + (c + 0 + 1)) % 65536 := by omega
    have hslot : setSlot fp ((e + c) % 65536) none ((e + (c + 0 + 1)) % 65536) = none := by
      rw [setSlot_other _ _ _ _ (Ne.symm hne)]
      exact hgap
    simp only [hexp1]
    rw [if_pos hne]
    simp only [hslot]
    refine ⟨_, rfl, rfl, ?_, ?_, ?_, rfl, rfl, rfl, rfl, rfl, rfl⟩
    · simp [List.range'_one]
    · intro i h1 h2
      have : i = c := by omega
      subst this
      exact setSlot_same _ _ _
    · intro x hx
      exact setSlot_other _ _ _ _ (hx c (le_refl _) (by omega))
  | succ r ih =>
    intro fuel c s hf hr hexp hpop hop hlen hgap
    obtain ⟨fuel, rfl⟩ : ∃ f, fuel = f + 1 := ⟨fuel - 1, by omega⟩
    rcases s with ⟨ex, bf, fs, fe, fm, fp, sp, q, sk⟩
    simp only at hexp hpop hgap
    subst hexp
    have hl : ¬ (ReadPacket.len ⟨b c⟩ < 4) := by
      have := hlen c (le_refl _) (by omega)
      show ¬ ((b c).length < 4)
      omega
    unfold checkAfterLoop
    simp only [if_neg (hop c (le_refl _) (by omega)), if_neg hl]
    have hexp1 : ((e + c) % 65536 + 1) % 65536 = (e + (c + 1)) % 65536 := by omega
    have hne : (e + c) % 65536 ≠ (e + (c + 1)) % 65536 := by omega
    have hslot : setSlot fp ((e + c) % 65536) none ((e + (c + 1)) % 65536)
        = some ⟨b (c + 1)⟩ := by
      rw [setSlot_other _ _ _ _ (Ne.symm hne)]
      exact hpop (c + 1) (by omega) (by omega)
    simp only [hexp1]
    rw [if_pos hne]
    simp only [hslot]
    have hend : e + (c + 1 + r + 1) = e + (c + (r + 1) + 1) := by omega
    obtain ⟨s', h1, h2, h3, h4, h5, h6, h7, h8, h9, h10, h11⟩ :=
      ih fuel (c + 1)
        ⟨(e + (c + 1)) % 65536, bf, fs, fe, fm, setSlot fp ((e + c) % 65536) none, sp,
          q ++ [⟨(b c).drop 4⟩], sk⟩
        (by omega) (by omega) rfl
        (by
          intro i hi1 hi2
          show setSlot fp _ _ _ = _
          rw [setSlot_other _ _ _ _ (by omega)]
          exact hpop i (by omega) (by omega))
        (fun i hi1 hi2 => hop i (by omega) (by omega))
        (fun i hi1 hi2 => hlen i (by omega) (by omega))
        (by
          show setSlot fp _ _ _ = _
          rw [setSlot_other _ _ _ _ (by omega), hend]
          exact hgap)
    refine ⟨s', h1, ?_, ?_, ?_, ?_, h6, h7, h8, h9, h10, h11⟩
    · rw [h2, hend]
    · rw [h3]
      show (q ++ [_]) ++ _ = q ++ _
      rw [List.append_assoc, List.range'_succ c (r + 1)]
      rfl
    · intro i hi1 hi2
      by_cases hic : i = c
      · subst hic
        rw [h5 _ (by intro k hk1 hk2; omega)]
        exact setSlot_same _ _ _
      · exact h4 i (by omega) (by omega)
    · intro x hx
      rw [h5 x (fun k hk1 hk2 => hx k (by omega) (by omega))]
      exact setSlot_other _ _ _ _ (hx c (le_refl _) (by omega))

/-- C13: for every state and every datagram (of at least its 4 header
bytes) whose sequence number equals ExpectedSequence `e`, with the slots
`e+1 .. e+j` holding buffered non-fragment datagrams `b 1 .. b j`
(`j ≥ 0`, each of at least 4 bytes) and slot `e+j+1` empty,
`checkInboundPacket` returns; it has appended the datagram's payload and
then the `j` buffered payloads in sequence order to the DeliveryQueue,
emptied those `j` slots and no other, set ExpectedSequence to `e+j+1`
(mod 65536) and emitted exactly one ack, for `e+j`. -/
theorem checkInboundPacket_in_order_step (net : Network) (s : State) (packet : List Nat)
    (b : Nat → List Nat) (j fuel : Nat)
    (hseq : sequenceOf packet = s.mExpectedSeq) (hj : j < 65536)
    (hlen : 4 ≤ packet.length)
    (hbuf : ∀ i, 1 ≤ i → i ≤ j →
      s.mFuturePackets ((s.mExpectedSeq + i) % 65536) = some ⟨b i⟩)
    (hop : ∀ i, 1 ≤ i → i ≤ j → opcodeOf (b i) ≠ net.OP_Fragment)
    (hblen : ∀ i, 1 ≤ i → i ≤ j → 4 ≤ (b i).length)
    (hgap : s.mFuturePackets ((s.mExpectedSeq + j + 1) % 65536) = none)
    (hfuel : j < fuel) :
    ∃ s', checkInboundPacket net fuel s packet = some s'
      ∧ s'.mReadPacketQueue = s.mReadPacketQueue
          ++ ⟨packet.drop 4⟩ :: (List.range' 1 j).map (fun i => (⟨(b i).drop 4⟩ : ReadPacket))
      ∧ (∀ i, 1 ≤ i → i ≤ j → s'.mFuturePackets ((s.mExpectedSeq + i) % 65536) = none)
      ∧ (∀ x, (∀ i, 1 ≤ i → i ≤ j → x ≠ (s.mExpectedSeq + i) % 65536) →
          s'.mFuturePackets x = s.mFuturePackets x)
      ∧ s'.mExpectedSeq = (s.mExpectedSeq + j + 1) % 65536
      ∧ s'.mSocket = s.mSocket ++ [(s.mExpectedSeq + j) % 65536]
      ∧ s'.mSentPackets = s.mSentPackets ∧ s'.mBuildingFrag = s.mBuildingFrag
      ∧ s'.mFragStart = s.mFragStart ∧ s'.mFragEnd = s.mFragEnd
      ∧ s'.mFragMilestone = s.mFragMilestone := by
  have he : s.mExpectedSeq < 65536 := by
    rw [← hseq]; exact sequenceOf_lt packet
  rcases s with ⟨e, bf, fs, fe, fm, fp, sp, q, sk⟩
  simp only at hseq hbuf hgap he
  obtain ⟨fuel, rfl⟩ : ∃ f, fuel = f + 1 := ⟨fuel - 1, by omega⟩
  have hcmp : compareSequence e e = SEQUENCE_PRESENT := by simp [compareSequence]
  have hl : ¬ (packet.length < 4) := by omega
  unfold checkInboundPacket
  simp only [hseq, hcmp, if_neg hl]
  unfold checkAfterPacket
  simp only
  rcases Nat.eq_zero_or_pos j with hj0 | hjpos
  · subst hj0
    have hslot : fp ((e + 1) % 65536) = none := hgap
    simp only [hslot]
    refine ⟨_, rfl, rfl, ?_, ?_, ?_, ?_, rfl, rfl, rfl, rfl, rfl⟩
    · intro i h1 h2; omega
    · intro x _; rfl
    · rfl
    · show sk ++ [((e + 1) % 65536 + 65535) % 65536 % 65536] = sk ++ [(e + 0) % 65536]
      have : ((e + 1) % 65536 + 65535) % 65536 % 65536 = (e + 0) % 65536 := by omega
      rw [this]
  · have hslot : fp ((e + 1) % 65536) = some ⟨b 1⟩ := hbuf 1 (le_refl _) hjpos
    simp only [hslot]
    have hc : 1 + (j - 1) = j := by omega
    obtain ⟨s', h1, h2, h3, h4, h5, h6, h7, h8, h9, h10, h11⟩ :=
      checkAfterLoop_run net e b (j - 1) fuel 1
        ⟨(e + 1) % 65536, bf, fs, fe, fm, fp, sp, q ++ [⟨packet.drop 4⟩], sk⟩
        (by omega) (by omega) rfl
        (fun i hi1 hi2 => hbuf i hi1 (by omega))
        (fun i hi1 hi2 => hop i hi1 (by omega))
        (fun i hi1 hi2 => hblen i hi1 (by omega))
        (by
          show fp _ = none
          have : e + (1 + (j - 1) + 1) = e + j + 1 := by omega
          rw [this]
          exact hgap)
    rw [h1]
    simp only
    refine ⟨_, rfl, ?_, ?_, ?_, ?_, ?_, h7, h8, h9, h10, h11⟩
    · show s'.mReadPacketQueue = _
      rw [h3]
      show (q ++ [_]) ++ _ = q ++ _
      have hr : j - 1 + 1 = j := by omega
      rw [List.append_assoc, hr]
      rfl
    · intro i hi1 hi2
      exact h4 i hi1 (by omega)
    · intro x hx
      exact h5 x (fun i hi1 hi2 => hx i hi1 (by omega))
    · show s'.mExpectedSeq = _
      rw [h2]
      have : e + (1 + (j - 1) + 1) = e + j + 1 := by omega
      rw [this]
    · show s'.mSocket ++ [(s'.mExpectedSeq + 65535) % 65536 % 65536] = _
      rw [h6, h2]
      have : ((e + (1 + (j - 1) + 1)) % 65536 + 65535) % 65536 % 65536 = (e + j) % 65536 := by
        omega
      rw [this]

/-- Witness for C13: 65534 arrives with 65535 and 0 buffered: three
payloads delivered, ExpectedSequence 1, ack 0. -/
theorem checkInboundPacket_in_order_step_witness :
    ∃ s', checkInboundPacket acceptingNet 3 twoBuffered (numbered 65534 0) = some s'
      ∧ s'.mReadPacketQueue = [⟨[0]⟩, ⟨[1]⟩, ⟨[2]⟩]
      ∧ s'.mExpectedSeq = 1
      ∧ s'.mSocket = [0] := by
  obtain ⟨s', h1, h2, _, _, h5, h6, _⟩ :=
    checkInboundPacket_in_order_step acceptingNet twoBuffered (numbered 65534 0)
      (numbered 65534) 2 3 (by decide) (by decide) (by decide)
      (by
        intro i hi1 hi2
        have h : i = 1 ∨ i = 2 := by omega
        rcases h with h | h <;> subst h <;> rfl)
      (by
        intro i _ _
        rw [numbered, opcodeOf_dataDatagram]
        decide)
      (by intro i _ _; simp [numbered, dataDatagram])
      rfl (by decide)
  exact ⟨s', h1, h2, h5, h6⟩

/-! ## A rejected reassembly -/

/-- `checkFragmentComplete` with every piece present: the clean-up state
followed by the closing `checkAfterPacket` and the second ack. -/
theorem checkFragmentComplete_unfold (net : Network) (fuel : Nat) (s : State)
    (first : ReadPacket) (len : Nat) (r : (Nat → Option ReadPacket) × List Nat)
    (h1 : s.mFuturePackets s.mFragStart = some first)
    (h2 : fragLength s.mFuturePackets s.mFragEnd 65536 ((s.mFragStart + 1) % 65536)
        ((first.len + 4294967296 - 8) % 4294967296) = some len)
    (h8 : 8 ≤ first.len)
    (hr : fragCopy s.mFragEnd 65536 ((s.mFragStart + 1) % 65536)
        (setSlot s.mFuturePackets s.mFragStart none) (first.data.drop 8) = some r) :
    checkFragmentComplete net (fuel + 1) s
      = (match checkAfterPacket net fuel (completedState net s r len) with
        | none => none
        | some s3 =>
          if s3.mExpectedSeq ≠ s.mFragEnd then
            some (sendAck s3 ((s3.mExpectedSeq + 65535) % 65536))
          else some s3) := by
  have hl : ¬ (first.len < 8) := by omega
  unfold checkFragmentComplete
  simp only [h1, h2, if_neg hl, hr]
  rfl

/-- C14: when every slot of `[start, end)` is populated and the session
checksum rejects the reassembled payload, `checkFragmentComplete` builds
the clean-up state `cs`: nothing appended to the DeliveryQueue,
ExpectedSequence set to `end`, the assembly cleared, every slot of
`[start, end)` emptied and no other slot touched, one ack for `end - 1`
emitted. The closing `checkAfterPacket` runs from `cs`; with nothing
buffered at `end` the call returns `cs` itself. -/
theorem checkFragmentComplete_checksum_failure (net : Network) (p : Nat → List Nat) (n : Nat)
    (s : State) (fuel : Nat)
    (hstart : s.mFragStart < 65536) (hn1 : 1 ≤ n) (hn : n < 65536)
    (hend : s.mFragEnd = (s.mFragStart + n) % 65536)
    (hpop : ∀ j, j < n → s.mFuturePackets ((s.mFragStart + j) % 65536) = some ⟨p j⟩)
    (hhead : 8 ≤ (p 0).length) (hcont : ∀ j, 0 < j → j < n → 4 ≤ (p j).length)
    (hL : (reassembled p n).length < 4294967296)
    (hcrc : net.validatePacket (reassembled p n) (reassembled p n).length = false) :
    ∃ cs : State,
      cs.mReadPacketQueue = s.mReadPacketQueue
      ∧ cs.mExpectedSeq = s.mFragEnd
      ∧ cs.mBuildingFrag = false
      ∧ (∀ j, j < n → cs.mFuturePackets ((s.mFragStart + j) % 65536) = none)
      ∧ (∀ x, (∀ j, j < n → x ≠ (s.mFragStart + j) % 65536) →
          cs.mFuturePackets x = s.mFuturePackets x)
      ∧ cs.mSocket = s.mSocket ++ [(s.mFragEnd + 65535) % 65536]
      ∧ cs.mSentPackets = s.mSentPackets
      ∧ checkFragmentComplete net (fuel + 1) s
          = (match checkAfterPacket net fuel cs with
            | none => none
            | some s3 =>
              if s3.mExpectedSeq ≠ s.mFragEnd then
                some (sendAck s3 ((s3.mExpectedSeq + 65535) % 65536))
              else some s3)
      ∧ (s.mFuturePackets s.mFragEnd = none →
          checkFragmentComplete net (fuel + 2) s = some cs) := by
  rcases s with ⟨ex, bf, start, fe, fm, fp, sp, q, sk⟩
  simp only at hstart hend hpop
  subst hend
  have hs0 : (start + 0) % 65536 = start := by omega
  have hfirst : fp start = some ⟨p 0⟩ := by
    have := hpop 0 (by omega)
    rw [hs0] at this
    exact this
  have hend2 : (start + 1 + (n - 1)) % 65536 = (start + n) % 65536 := by
    have : start + 1 + (n - 1) = start + n := by omega
    rw [this]
  have hlen : fragLength fp ((start + n) % 65536) 65536 ((start + 1) % 65536)
      (((⟨p 0⟩ : ReadPacket).len + 4294967296 - 8) % 4294967296)
      = some (reassembled p n).length := by
    have h := fragLength_present p fp start (n - 1) 65536 1
      (((⟨p 0⟩ : ReadPacket).len + 4294967296 - 8) % 4294967296) (by omega) (by omega)
      (Nat.mod_lt _ (by decide))
      (fun j h1 h2 => hpop j (by omega))
      (fun j h1 h2 => hcont j (by omega) (by omega))
    rw [hend2] at h
    rw [h]
    refine congrArg some ?_
    have hr := reassembled_length p n
    simp only [ReadPacket.len]
    omega
  have hcopy := fragCopy_present p start (n - 1) 65536 1
    (setSlot fp start none) ((p 0).drop 8) (by omega) (by omega)
    (by
      intro j h1 h2
      rw [setSlot_other _ _ _ _ (by omega)]
      exact hpop j (by omega))
    (fun j h1 h2 => hcont j (by omega) (by omega))
  rw [hend2] at hcopy
  obtain ⟨fp', hc1, hc2, hc3⟩ := hcopy
  have hcs : completedState net ⟨ex, bf, start, (start + n) % 65536, fm, fp, sp, q, sk⟩
      (fp', reassembled p n) (reassembled p n).length
      = ⟨(start + n) % 65536, false, start, (start + n) % 65536, fm, fp', sp, q,
          sk ++ [((start + n) % 65536 + 65535) % 65536 % 65536]⟩ := by
    unfold completedState
    simp only [hcrc]
    simp [sendAck]
  have hcleared : ∀ j, j < n → fp' ((start + j) % 65536) = none := by
    intro j hj
    rcases Nat.eq_zero_or_pos j with hj0 | hjpos
    · subst hj0
      rw [hc3 _ (by intro i hi1 hi2; omega), hs0]
      exact setSlot_same _ _ _
    · exact hc2 j (by omega) (by omega)
  have hothers : ∀ x, (∀ j, j < n → x ≠ (start + j) % 65536) → fp' x = fp x := by
    intro x hx
    rw [hc3 x (fun i hi1 hi2 => hx i (by omega))]
    have := hx 0 (by omega)
    rw [hs0] at this
    exact setSlot_other _ _ _ _ this
  refine ⟨completedState net ⟨ex, bf, start, (start + n) % 65536, fm, fp, sp, q, sk⟩
      (fp', reassembled p n) (reassembled p n).length, ?_, ?_, ?_, ?_, ?_, ?_, ?_, ?_, ?_⟩
  · rw [hcs]
  · rw [hcs]
  · rw [hcs]
  · rw [hcs]; exact hcleared
  · rw [hcs]; exact hothers
  · rw [hcs]
    show sk ++ _ = sk ++ _
    rw [Nat.mod_mod]
  · rw [hcs]
  · exact checkFragmentComplete_unfold net fuel _ ⟨p 0⟩ _ _ hfirst hlen hhead hc1
  · intro hgap
    apply checkFragmentComplete_complete net fuel _ ⟨p 0⟩ _ _ hfirst hlen hhead hc1
    show fp' ((start + n) % 65536) = none
    rw [hothers _ (by intro j hj; omega)]
    exact hgap

/-- Witness for C14: the 1200-byte message at `[50, 53)` with a rejecting
checksum: no delivery, ExpectedSequence 53, slots emptied, ack 52. -/
theorem checkFragmentComplete_checksum_failure_witness :
    ∃ cs, checkFragmentComplete rejectingNet 2 complete1200 = some cs
      ∧ cs.mReadPacketQueue = []
      ∧ cs.mExpectedSeq = 53
      ∧ cs.mBuildingFrag = false
      ∧ cs.mFuturePackets 50 = none ∧ cs.mFuturePackets 51 = none
      ∧ cs.mFuturePackets 52 = none
      ∧ cs.mSocket = [52] := by
  obtain ⟨cs, h1, h2, h3, h4, _, h6, _, _, h9⟩ :=
    checkFragmentComplete_checksum_failure rejectingNet piece1200 3 complete1200 0
      (by decide) (by decide) (by decide) rfl
      (by
        intro j hj
        have h : j = 0 ∨ j = 1 ∨ j = 2 := by omega
        rcases h with h | h | h <;> subst h <;> rfl)
      (by rw [piece1200_lengths.1]; decide)
      (by
        intro j h0 hj
        have h : j = 1 ∨ j = 2 := by omega
        rcases h with h | h <;> subst h
        · rw [piece1200_lengths.2.1]; decide
        · rw [piece1200_lengths.2.2.1]; decide)
      (by rw [piece1200_lengths.2.2.2]; decide)
      rfl
  exact ⟨cs, h9 rfl, h1, h2, h3, h4 0 (by decide), h4 1 (by decide), h4 2 (by decide), h6⟩

/-! ## A drain that does not return -/

/-- With a fragment-opcode datagram as `nextPacket` and an assembly that
cannot complete, the loop of `checkAfterPacket` makes no progress. -/
theorem checkAfterLoop_stuck (net : Network) (p : ReadPacket) (s : State)
    (hop : opcodeOf p.data = net.OP_Fragment)
    (hstart : s.mFragStart < 65536) (hend : s.mFragEnd < 65536)
    (hmiss : s.mFuturePackets s.mFragStart = none ∨
      ∃ j, j < (s.mFragEnd + 65536 - s.mFragStart) % 65536 ∧
        s.mFuturePackets ((s.mFragStart + j) % 65536) = none) :
    ∀ fuel, checkAfterLoop net fuel s.mExpectedSeq p s = none := by
  intro fuel
  induction fuel with
  | zero => rfl
  | succ fuel ih =>
    unfold checkAfterLoop
    simp only [hop, if_true]
    cases fuel with
    | zero => rfl
    | succ f =>
      rw [checkFragmentComplete_missing net f s hstart hend hmiss]
      simp only [ne_eq, not_true_eq_false, if_false]
      exact ih

/-- With a fragment-opcode datagram buffered at ExpectedSequence and an
assembly that cannot complete, `checkAfterPacket` returns for no fuel. -/
theorem checkAfterPacket_stuck (net : Network) (p : ReadPacket) (s : State)
    (hslot : s.mFuturePackets s.mExpectedSeq = some p)
    (hop : opcodeOf p.data = net.OP_Fragment)
    (hstart : s.mFragStart < 65536) (hend : s.mFragEnd < 65536)
    (hmiss : s.mFuturePackets s.mFragStart = none ∨
      ∃ j, j < (s.mFragEnd + 65536 - s.mFragStart) % 65536 ∧
        s.mFuturePackets ((s.mFragStart + j) % 65536) = none) :
    ∀ fuel, checkAfterPacket net fuel s = none := by
  intro fuel
  cases fuel with
  | zero => rfl
  | succ f =>
    unfold checkAfterPacket
    rw [hslot]
    exact checkAfterLoop_stuck net p s hop hstart hend hmiss f

/-- An expected data datagram followed in the buffer by a fragment-opcode
datagram whose assembly cannot complete: `checkInboundPacket` returns for
no fuel. -/
theorem checkInboundPacket_stuck (net : Network) (s : State) (packet : List Nat)
    (p : ReadPacket)
    (hcmp : compareSequence (sequenceOf packet) s.mExpectedSeq = SEQUENCE_PRESENT)
    (hslot : s.mFuturePackets ((s.mExpectedSeq + 1) % 65536) = some p)
    (hop : opcodeOf p.data = net.OP_Fragment)
    (hstart : s.mFragStart < 65536) (hend : s.mFragEnd < 65536)
    (hmiss : s.mFuturePackets s.mFragStart = none ∨
      ∃ j, j < (s.mFragEnd + 65536 - s.mFragStart) % 65536 ∧
        s.mFuturePackets ((s.mFragStart + j) % 65536) = none) :
    ∀ fuel, checkInboundPacket net fuel s packet = none := by
  intro fuel
  unfold checkInboundPacket
  simp only [hcmp]
  split
  · rfl
  · have h := checkAfterPacket_stuck net p
      { s with
        mReadPacketQueue := s.mReadPacketQueue ++ [⟨packet.drop 4⟩]
        mExpectedSeq := (s.mExpectedSeq + 1) % 65536 } hslot hop hstart hend hmiss fuel
    rw [h]

set_option maxRecDepth 8192 in
/-- C15 fails on the code: after a two-piece message at 0 and 1 has been
delivered (ExpectedSequence 2, `mFragStart = 0` with slot 0 empty again),
the head of a later message is buffered at 3; when the data datagram 2
arrives, `checkAfterPacket` finds a fragment-opcode datagram at
ExpectedSequence 3, `checkFragmentComplete` returns without completing,
and the `while` loop repeats with the same `nextPacket`: the call returns
for no amount of fuel. -/
theorem drain_hangs_on_buffered_fragment :
    ∃ s3, feedFragments acceptingNet 2 initState [twoPieceHead, twoPieceCont, laterHead]
        = some s3
      ∧ s3.mExpectedSeq = 2 ∧ s3.mBuildingFrag = false
      ∧ s3.mFuturePackets 3 = some ⟨laterHead⟩
      ∧ opcodeOf laterHead = acceptingNet.OP_Fragment
      ∧ (∀ fuel, checkInboundPacket acceptingNet fuel s3 (numbered 0 2) = none)
      ∧ (∀ fuel, checkAfterPacket acceptingNet fuel { s3 with mExpectedSeq := 3 } = none) :=
  ⟨_, rfl, rfl, rfl, rfl, rfl,
   checkInboundPacket_stuck acceptingNet _ (numbered 0 2) ⟨laterHead⟩ (by decide) rfl rfl
     (by decide) (by decide) (Or.inl rfl),
   checkAfterPacket_stuck acceptingNet ⟨laterHead⟩ _ rfl rfl (by decide) (by decide)
     (Or.inl rfl)⟩

/-! ## The look-ahead window, the fragment span and retained heads -/

/-- C22: for every state and every datagram classified `SEQUENCE_FUTURE`,
`checkInboundPacket` returns, having set `PendingInbound[got]` to the raw
datagram and changed nothing else: every other slot, ExpectedSequence,
the DeliveryQueue, the assembly fields and SentRetention are as before and
no ack is emitted. -/
theorem checkInboundPacket_future_buffers (net : Network) (fuel : Nat) (s : State)
    (packet : List Nat)
    (hcmp : compareSequence (sequenceOf packet) s.mExpectedSeq = SEQUENCE_FUTURE) :
    ∃ s', checkInboundPacket net fuel s packet = some s'
      ∧ s'.mFuturePackets (sequenceOf packet) = some ⟨packet⟩
      ∧ (∀ x, x ≠ sequenceOf packet → s'.mFuturePackets x = s.mFuturePackets x)
      ∧ s'.mExpectedSeq = s.mExpectedSeq
      ∧ s'.mReadPacketQueue = s.mReadPacketQueue
      ∧ s'.mBuildingFrag = s.mBuildingFrag ∧ s'.mFragStart = s.mFragStart
      ∧ s'.mFragEnd = s.mFragEnd ∧ s'.mFragMilestone = s.mFragMilestone
      ∧ s'.mSentPackets = s.mSentPackets
      ∧ s'.mSocket = s.mSocket := by
  unfold checkInboundPacket
  simp only [hcmp]
  exact ⟨_, rfl, setSlot_same _ _ _, fun x hx => setSlot_other _ _ _ _ hx, rfl, rfl, rfl, rfl,
    rfl, rfl, rfl, rfl⟩

/-- Witness for C22: datagram 10005 arriving while 10000 is expected. -/
theorem checkInboundPacket_future_buffers_witness :
    compareSequence (sequenceOf (numbered 10000 5)) 10000 = SEQUENCE_FUTURE
    ∧ ∃ s', checkInboundPacket acceptingNet 0 (expecting 10000) (numbered 10000 5) = some s'
      ∧ s'.mFuturePackets 10005 = some ⟨numbered 10000 5⟩
      ∧ s'.mExpectedSeq = 10000 ∧ s'.mReadPacketQueue = [] ∧ s'.mSocket = [] := by
  refine ⟨by decide, ?_⟩
  obtain ⟨s', h1, h2, _, h4, h5, _, _, _, _, _, h11⟩ :=
    checkInboundPacket_future_buffers acceptingNet 0 (expecting 10000) (numbered 10000 5)
      (by decide)
  exact ⟨s', h1, h2, h4, h5, h11⟩

/-- C23: for every start value `e`, every `k` with `1 ≤ k ≤ WINDOW_SIZE`
and every arrival order of `k` non-fragment data datagrams with the
sequence numbers `e .. e+k-1` (mod 65536), each fed once to
`checkInboundPacket` on a channel with ExpectedSequence `e` and nothing
buffered: every call returns, the DeliveryQueue gains exactly the `k`
stripped payloads in sequence order (none is dropped), ExpectedSequence
ends at `e + k`, PendingInbound is empty again and the last ack emitted is
for `e + k - 1`. -/
theorem feedPackets_window_bounded (net : Network) (d : Nat → List Nat) (e k : Nat)
    (hk1 : 1 ≤ k) (hk : k ≤ WINDOW_SIZE) (he : e < 65536)
    (hseq : ∀ j, j < k → sequenceOf (d j) = (e + j) % 65536)
    (hop : ∀ j, j < k → opcodeOf (d j) ≠ net.OP_Fragment)
    (hlen : ∀ j, j < k → 4 ≤ (d j).length)
    (fuel : Nat) (hfuel : k < fuel) (s : State) (hexp : s.mExpectedSeq = e)
    (hempty : ∀ x, s.mFuturePackets x = none)
    (arrival : List Nat) (hperm : arrival.Perm (List.range k)) :
    ∃ s', feedPackets net fuel s (arrival.map d) = some s'
      ∧ s'.mReadPacketQueue
          = s.mReadPacketQueue ++ (List.range k).map (fun j => (⟨(d j).drop 4⟩ : ReadPacket))
      ∧ s'.mExpectedSeq = (e + k) % 65536
      ∧ (∀ x, s'.mFuturePackets x = none)
      ∧ (∃ l, s'.mSocket = l ++ [(e + k + 65535) % 65536]) := by
  obtain ⟨s', h1, h2, h3, h4, h5, _⟩ :=
    feedPackets_perm net d e k hk he hseq hop hlen fuel hfuel s hexp hempty arrival hperm
  exact ⟨s', h1, h2, h3, h4, h5 (by omega)⟩

/-- Witness for C23: the run 65535, 0, 1, 2 arriving as 2, 0, 65535, 1. -/
theorem feedPackets_window_bounded_witness :
    ∃ s', feedPackets acceptingNet 5 (expecting 65535)
        ([3, 1, 0, 2].map (numbered 65535)) = some s'
      ∧ s'.mReadPacketQueue = [⟨[0]⟩, ⟨[1]⟩, ⟨[2]⟩, ⟨[3]⟩]
      ∧ s'.mExpectedSeq = 3
      ∧ (∀ x, s'.mFuturePackets x = none)
      ∧ (∃ l, s'.mSocket = l ++ [2]) :=
  feedPackets_window_bounded acceptingNet (numbered 65535) 65535 4 (by decide) (by decide)
    (by decide)
    (by intro j hj; exact sequenceOf_dataDatagram _ _ _)
    (by
      intro j hj
      rw [numbered, opcodeOf_dataDatagram]
      decide)
    (by intro j hj; simp [numbered, dataDatagram])
    5 (by decide) (expecting 65535) rfl (fun _ => rfl) [3, 1, 0, 2] (by decide)

/-- C24, as stated, fails: for `L = 505` the span computed from the head is
1, while a sender whose head carries at most 504 bytes needs 2 datagrams;
a head declaring 505 bytes sets `end = start + 1` and the message counts
as complete with that one datagram. And for `L = 33291780` (`65535 * 508`)
the 16-bit `end` has wrapped round to `start`: the span is 0, while the
sender needs 65536 datagrams. -/
theorem fragmentSpan_short_of_packed :
    (1 ≤ 505 ∧ fragmentSpan 505 = 1 ∧ packedDatagrams 505 = 2
      ∧ fragmentSpan 505 ≠ packedDatagrams 505)
    ∧ (compareSequence (sequenceOf head505) initState.mExpectedSeq = SEQUENCE_PRESENT
      ∧ fragSizeOf head505 = 505
      ∧ ∃ s', checkInboundFragment acceptingNet 2 initState head505 = some s'
        ∧ s'.mFragStart = 0 ∧ s'.mFragEnd = 1 ∧ s'.mBuildingFrag = false
        ∧ s'.mExpectedSeq = 1)
    ∧ (1 ≤ 33291780 ∧ 33291780 % 508 ≤ 504 ∧ fragmentSpan 33291780 = 0
      ∧ packedDatagrams 33291780 = 65536) :=
  ⟨by decide, ⟨by decide, by decide, _, rfl, rfl, rfl, rfl, rfl⟩, by decide⟩

/-- C24, amended: for a head classified `SEQUENCE_PRESENT` that declares a
length `L` with `1 ≤ L < 33291780`, the span `end - start` (mod 65536)
that `checkInboundFragment` sets up, and that every state it returns has,
is `floor(L / 508) + 1`; for `L mod 508 ≤ 504` this is the number of
datagrams of a maximally packed sender (head at most 504 bytes,
continuations at most 508), and for `L mod 508` in `505 .. 507` it is one
less than that number. -/
theorem fragmentSpan_vs_packed (net : Network) (fuel : Nat) (s : State) (packet : List Nat)
    (hcmp : compareSequence (sequenceOf packet) s.mExpectedSeq = SEQUENCE_PRESENT)
    (hL1 : 1 ≤ fragSizeOf packet) (hL : fragSizeOf packet < 33291780) :
    (∃ s1 : State, s1.mFragStart = sequenceOf packet
        ∧ s1.mFragEnd = (sequenceOf packet + fragSizeOf packet / 508 + 1) % 65536
        ∧ (s1.mFragEnd + 65536 - s1.mFragStart) % 65536 = fragmentSpan (fragSizeOf packet)
        ∧ checkInboundFragment net fuel s packet
            = (match checkFragmentComplete net fuel s1 with
              | none => none
              | some s2 => checkInboundFragmentFuture net fuel s2 packet (sequenceOf packet)))
    ∧ (∀ s', checkInboundFragment net fuel s packet = some s' →
        (s'.mFragEnd + 65536 - s'.mFragStart) % 65536 = fragmentSpan (fragSizeOf packet))
    ∧ fragmentSpan (fragSizeOf packet) = fragSizeOf packet / 508 + 1
    ∧ (fragSizeOf packet % 508 ≤ 504 →
        fragmentSpan (fragSizeOf packet) = packedDatagrams (fragSizeOf packet))
    ∧ (504 < fragSizeOf packet % 508 →
        fragmentSpan (fragSizeOf packet) + 1 = packedDatagrams (fragSizeOf packet)) := by
  have hlt := sequenceOf_lt packet
  have hspan : ∀ a b : Nat, a = sequenceOf packet →
      b = (sequenceOf packet + fragSizeOf packet / 508 + 1) % 65536 →
      (b + 65536 - a) % 65536 = fragmentSpan (fragSizeOf packet) := by
    intro a b ha hb
    unfold fragmentSpan
    omega
  refine ⟨?_, ?_, ?_, ?_, ?_⟩
  · obtain ⟨s1, _, h2, _, h4, _, _, _, _, _, h10⟩ :=
      checkInboundFragment_head_setup net fuel s packet hcmp
    exact ⟨s1, h2, h4, hspan _ _ h2 h4, h10⟩
  · intro s' h
    obtain ⟨f1, _, f3⟩ := checkInboundFragment_head_fields net fuel s s' packet hcmp h
    exact hspan _ _ f1 f3
  · unfold fragmentSpan
    omega
  · intro h
    unfold fragmentSpan packedDatagrams
    split <;> omega
  · intro h
    unfold fragmentSpan packedDatagrams
    split <;> omega

/-- Witness for the amended C24: the head of the 1200-byte message at 50;
`L = 1200` needs 3 datagrams and the span is 3. -/
theorem fragmentSpan_vs_packed_witness :
    (compareSequence (sequenceOf (piece1200 0)) (expecting 50).mExpectedSeq = SEQUENCE_PRESENT
      ∧ 1 ≤ fragSizeOf (piece1200 0) ∧ fragSizeOf (piece1200 0) < 33291780
      ∧ fragSizeOf (piece1200 0) % 508 ≤ 504)
    ∧ fragmentSpan (fragSizeOf (piece1200 0)) = packedDatagrams (fragSizeOf (piece1200 0)) :=
  ⟨by decide,
   (fragmentSpan_vs_packed acceptingNet 1 (expecting 50) (piece1200 0) (by decide) (by decide)
      (by decide)).2.2.2.1 (by decide)⟩

/-- The end of the assembly set by `checkInboundFragment` is `fragmentSpan`
sequence numbers after the head. -/
theorem fragEnd_eq_fragmentSpan (seq size : Nat) :
    (seq + size / 508 + 1) % 65536 = (seq + fragmentSpan size) % 65536 := by
  unfold fragmentSpan
  omega

/-- C25, as stated, fails: with 10000 expected, the sequence number 100,
which lies 9900 behind and not within the look-ahead window, is classified
`SEQUENCE_FUTURE` through `got < expected - WINDOW_SIZE`, and
`checkInboundPacket` retains the datagram in `PendingInbound[100]`. -/
theorem future_beyond_lookahead :
    compareSequence (sequenceOf stale100) 10000 = SEQUENCE_FUTURE
    ∧ ¬ ((sequenceOf stale100 + 65536 - 10000) % 65536 < WINDOW_SIZE)
    ∧ (10000 + 65536 - sequenceOf stale100) % 65536 = 9900
    ∧ ∃ s', checkInboundPacket acceptingNet 0 (expecting 10000) stale100 = some s'
        ∧ s'.mFuturePackets 100 = some ⟨stale100⟩ :=
  ⟨by decide, by decide, by decide, _, rfl, rfl⟩

/-- C25, amended: for an expected value at or above the window, if
`compareSequence got expected` returns `SEQUENCE_FUTURE` then `got` is not
cyclically behind `expected` by `WINDOW_SIZE` or less,
`(expected - got) mod 65536 > WINDOW_SIZE`: either `got` is ahead of
`expected` by less than the window, or `got` is numerically more than the
window below `expected`. So there a sequence number consumed within the
last `WINDOW_SIZE` steps is never classified `SEQUENCE_FUTURE`. -/
theorem future_not_recently_consumed (got expected : Nat) (hg : got < 65536)
    (he : expected < 65536) (hW : WINDOW_SIZE ≤ expected)
    (hf : compareSequence got expected = SEQUENCE_FUTURE) :
    got ≠ expected
    ∧ WINDOW_SIZE < (expected + 65536 - got) % 65536
    ∧ ((expected < got ∧ (got + 65536 - expected) % 65536 < WINDOW_SIZE)
        ∨ got + WINDOW_SIZE < expected) := by
  unfold compareSequence at hf
  unfold WINDOW_SIZE at hf hW ⊢
  by_cases hne : got = expected
  · rw [if_pos hne] at hf
    cases hf
  · rw [if_neg hne] at hf
    by_cases hc : (got > expected ∧ got < (expected + 2048) % 4294967296)
        ∨ got < (expected + 4294967296 - 2048) % 4294967296
    · refine ⟨hne, ?_, ?_⟩
      · omega
      · omega
    · rw [if_neg hc] at hf
      cases hf

/-- Witness for the amended C25: got 100, expected 10000. -/
theorem future_not_recently_consumed_witness :
    (100 < 65536 ∧ 10000 < 65536 ∧ WINDOW_SIZE ≤ 10000
      ∧ compareSequence 100 10000 = SEQUENCE_FUTURE)
    ∧ WINDOW_SIZE < (10000 + 65536 - 100) % 65536 :=
  ⟨by decide,
   (future_not_recently_consumed 100 10000 (by decide) (by decide) (by decide) (by decide)).2.1⟩

set_option maxRecDepth 8192 in
/-- C21 fails on the code: the `case SEQUENCE_PRESENT` block of
`checkInboundFragment` has no `break`, so after the assembly has completed
and its slots were emptied the `case SEQUENCE_FUTURE` block stores the
head again. A single-datagram message at sequence 0 leaves slot 0
populated with ExpectedSequence 1; the 1200-byte message at `[50, 53)`
whose head arrives last leaves slot 50 populated with ExpectedSequence 53;
the same message completed by a continuation leaves every slot empty. -/
theorem fragment_head_slot_retained :
    (compareSequence (sequenceOf smallHead) initState.mExpectedSeq = SEQUENCE_PRESENT
      ∧ fragSizeOf smallHead < 508
      ∧ ∃ s', checkInboundFragment acceptingNet 2 initState smallHead = some s'
        ∧ s'.mReadPacketQueue = [⟨[1, 2, 3, 4]⟩] ∧ s'.mExpectedSeq = 1
        ∧ s'.mBuildingFrag = false ∧ s'.mFragStart = 0 ∧ s'.mFragEnd = 1
        ∧ s'.mFuturePackets 0 = some ⟨smallHead⟩)
    ∧ (∃ s', feedFragments acceptingNet 2 (expecting 50) ([1, 2, 0].map piece1200) = some s'
        ∧ s'.mExpectedSeq = 53 ∧ s'.mBuildingFrag = false
        ∧ s'.mFuturePackets 50 = some ⟨piece1200 0⟩
        ∧ s'.mFuturePackets 51 = none ∧ s'.mFuturePackets 52 = none)
    ∧ (∃ s', feedFragments acceptingNet 2 (expecting 50) ([0, 1, 2].map piece1200) = some s'
        ∧ s'.mExpectedSeq = 53 ∧ s'.mBuildingFrag = false
        ∧ s'.mFuturePackets 50 = none
        ∧ s'.mFuturePackets 51 = none ∧ s'.mFuturePackets 52 = none) :=
  ⟨⟨by decide, by decide, _, rfl, rfl, rfl, rfl, rfl, rfl, rfl⟩,
   ⟨_, rfl, rfl, rfl, rfl, rfl, rfl⟩,
   ⟨_, rfl, rfl, rfl, rfl, rfl, rfl⟩⟩

/-- What the retained head leads to: with the head of a later message
buffered at 2, the data datagram 1 starts a drain that calls
`checkFragmentComplete` with the old `mFragStart = 0`, finds the retained
head and delivers the first message a second time, setting
ExpectedSequence back to 1. -/
theorem retained_head_delivered_twice :
    ∃ s1 s2 s3, checkInboundFragment acceptingNet 2 initState smallHead = some s1
      ∧ s1.mReadPacketQueue = [⟨[1, 2, 3, 4]⟩] ∧ s1.mExpectedSeq = 1
      ∧ checkInboundFragment acceptingNet 2 s1 headAt2 = some s2
      ∧ s2.mFuturePackets 2 = some ⟨headAt2⟩
      ∧ checkInboundPacket acceptingNet 5 s2 (numbered 0 1) = some s3
      ∧ s3.mReadPacketQueue = [⟨[1, 2, 3, 4]⟩, ⟨[1]⟩, ⟨[1, 2, 3, 4]⟩]
      ∧ s3.mExpectedSeq = 1 :=
  ⟨_, _, _, rfl, rfl, rfl, rfl, rfl, rfl, rfl, rfl⟩

end AckManager
